import Mathlib

/-!
Verification development for the `code_graph_rag` repository: a pipeline that
extracts a structural model of a Java codebase (packages, files, classes,
interfaces, members) and loads it into a property graph store.

The embedding covers:
* the extracted declaration records produced by `java_ast_v2.extract_ast_info`
  (and the older `java_ast.extract_ast_info`),
* the Project Index / Relationship Resolver (`analyze_relationships` in
  `java_ast_v2.py` and `java_ast.py`),
* the lexical object-reference extraction of `java_ast_analyzer.py`,
* the graph loader `CodeAnalyzerGraphLoader.load_project` of
  `graph_upsert_v2.py`, over an explicit operational model of the Cypher
  MERGE / MATCH / CREATE statements it issues.

External collaborators (the javalang/tree-sitter parser, the OpenAI
summarizer, the Neo4j engine itself) are modelled at their interfaces: parse
results and generated descriptions are inputs, and each Cypher statement used
by the loader is given a direct operational semantics on an explicit graph
state.
-/

namespace CodeGraphRag

/-! ## Python-style helpers -/

/-- Truthiness of an optional string, as Python evaluates `if x:` for a value
that is `None` or a `str`: `None` and `""` are falsy. -/
def pyTruthy : Option String → Bool
  | none => false
  | some s => !(s == "")

/-- The Python idiom `x if x else d` for `x : None | str`. -/
def pyStrOr (x : Option String) (d : String) : String :=
  match x with
  | none => d
  | some s => if s == "" then d else s

/-- Split a character list at every occurrence of the separator character,
mirroring Python's `str.split(sep)` for a one-character separator
(`"".split('.') == [""]`, `".x".split('.') == ["", "x"]`). -/
def splitOnChar (c : Char) : List Char → List (List Char)
  | [] => [[]]
  | a :: t =>
    let r := splitOnChar c t
    if a = c then [] :: r
    else
      match r with
      | [] => [[a]]
      | h :: t2 => (a :: h) :: t2

/-- Python's `s.split('.')`. -/
def pySplitDot (s : String) : List String :=
  (splitOnChar '.' s.toList).map (fun l => String.mk l)

/-- Python's `'.'.join(l)`. -/
def joinDot : List String → String
  | [] => ""
  | [a] => a
  | a :: b :: t => a ++ "." ++ joinDot (b :: t)

/-- Python's `s.endswith(suf)`. -/
def pyEndsWith (s suf : String) : Bool :=
  List.isPrefixOf suf.toList.reverse s.toList.reverse

/-- Lexicographic code-point comparison on character lists, the order Python
uses to compare strings. -/
def charListLeB : List Char → List Char → Bool
  | [], _ => true
  | _ :: _, [] => false
  | a :: s, b :: t => if a = b then charListLeB s t else decide (a.val < b.val)

/-- Python's `a <= b` on strings. -/
def strLeB (a b : String) : Bool := charListLeB a.toList b.toList

/-- Insert a string into a list sorted by `strLeB`. -/
def insertSorted (x : String) : List String → List String
  | [] => [x]
  | a :: t => if strLeB x a then x :: a :: t else a :: insertSorted x t

/-- Python's `sorted(l)` for a list of strings (ascending code-point order). -/
def sortStrings : List String → List String
  | [] => []
  | a :: t => insertSorted a (sortStrings t)

/-- Deduplicate a list of strings; together with `sortStrings` this models
`sorted(set(l))`. -/
def uniqStrings : List String → List String
  | [] => []
  | a :: t => if a ∈ t then uniqStrings t else a :: uniqStrings t

/-- Python's `os.path.basename` on POSIX paths: the part after the last `/`. -/
def basename (p : String) : String :=
  ((splitOnChar '/' p.toList).map (fun l => String.mk l)).getLastD p

/-! ## Extracted data model

The shapes below mirror the JSON records produced by
`java_ast_v2.extract_ast_info` / `process_java_file` and consumed by
`analyze_relationships` and `CodeAnalyzerGraphLoader.load_project`.
An `Option String` field models a JSON value that may be `null`. -/

/-- One entry of a method's `parameters` list. -/
structure ParamInfo where
  name : String
  type : Option String
deriving DecidableEq, Repr

/-- One entry of a class's `fields` list. -/
structure FieldInfo where
  name : String
  type : Option String
deriving DecidableEq, Repr

/-- One entry of a `methods` list (v2 extractor shape). -/
structure MethodInfo where
  name : String
  return_type : Option String
  parameters : List ParamInfo
  documentation : Option String
  description : Option String
  body : Option String
deriving DecidableEq, Repr

/-- One entry of a file's `classes` list. `extendsName` models the JSON key
`extends` (a Lean keyword), `implements` the raw implemented-interface
names. -/
structure ClassInfo where
  name : String
  extendsName : Option String
  implements : List String
  fields : List FieldInfo
  methods : List MethodInfo
deriving DecidableEq, Repr

/-- One entry of a file's `interfaces` list; `extendsNames` models the JSON
key `extends`, a list of raw names for interfaces. -/
structure InterfaceInfo where
  name : String
  extendsNames : List String
  methods : List MethodInfo
deriving DecidableEq, Repr

/-- A resolved dependency record `{type, target, file?}`; `dtype` models the
JSON key `type` and `file = none` models an absent `file` key. -/
structure Dependency where
  dtype : String
  target : String
  file : Option String
deriving DecidableEq, Repr

/-- The declaration record of one successfully parsed file. `dependencies` is
empty until `analyze_relationships` fills it in. -/
structure FileInfo where
  package : Option String
  imports : List String
  classes : List ClassInfo
  interfaces : List InterfaceInfo
  dependencies : List Dependency
deriving DecidableEq, Repr

/-- A file's record in `project_structure['files']`: either an error record
`{path, error}` produced when parsing failed, or a declaration record. -/
inductive FileRecord where
  | err (msg : String)
  | ok (info : FileInfo)
deriving DecidableEq, Repr

/-- Python's `'error' in file_info`. -/
def FileRecord.hasError : FileRecord → Bool
  | .err _ => true
  | .ok _ => false

/-- Python's `file_info.get('package')` (also the value seen by
`file_info.get('package', '')`, since for declaration records the key is
always present, possibly with value `None`). -/
def FileRecord.package : FileRecord → Option String
  | .err _ => none
  | .ok fi => fi.package

/-- Python's `file_info.get('imports', [])`. -/
def FileRecord.imports : FileRecord → List String
  | .err _ => []
  | .ok fi => fi.imports

/-- Python's `file_info.get('classes', [])`. -/
def FileRecord.classes : FileRecord → List ClassInfo
  | .err _ => []
  | .ok fi => fi.classes

/-- Python's `file_info.get('interfaces', [])`. -/
def FileRecord.interfaces : FileRecord → List InterfaceInfo
  | .err _ => []
  | .ok fi => fi.interfaces

/-- Python's `file_info.get('dependencies', [])`. -/
def FileRecord.dependencies : FileRecord → List Dependency
  | .err _ => []
  | .ok fi => fi.dependencies

/-- The whole analysis artifact: `{'project_path': ..., 'files': {...}}`.
The `files` dict is modelled as an association list in insertion order. -/
structure ProjectData where
  project_path : String
  files : List (String × FileRecord)
deriving DecidableEq, Repr

/-- `f"{package}.{name}" if package else name`, the fully-qualified type name
built throughout the pipeline. -/
def fullTypeName (package : Option String) (name : String) : String :=
  if pyTruthy package then (package.getD "") ++ "." ++ name else name

/-! ## Project Index (class map)

`analyze_relationships` (both variants) first builds `class_map`, a dict from
type names (fully-qualified and simple) to the declaring file's path.  A dict
is modelled as an association list where insertion prepends and lookup takes
the newest binding, which matches overwrite-on-insert semantics. -/

/-- The `class_map` dict. -/
abbrev ClassMap := List (String × String)

/-- `class_map[k] = v` (overwriting insert). -/
def dictInsert (m : ClassMap) (k v : String) : ClassMap := (k, v) :: m

/-- `class_map.get(k)`: the most recently inserted binding for `k`. -/
def dictLookup (m : ClassMap) (k : String) : Option String :=
  (m.find? (fun kv => kv.1 == k)).map (fun kv => kv.2)

/-- Python's `k in class_map`. -/
def dictMem (m : ClassMap) (k : String) : Bool :=
  (dictLookup m k).isSome

namespace JavaAstV2

/-- The class-map contribution of one file in
`java_ast_v2.analyze_relationships` (lines 252-267): error records are
skipped; every class and interface registers its fully-qualified name and its
simple name, both mapped to the file's path. -/
def registerFileTypes (cm : ClassMap) (file_path : String) (r : FileRecord) : ClassMap :=
  if r.hasError then cm
  else
    let cm := r.classes.foldl (fun cm ci =>
      dictInsert (dictInsert cm (fullTypeName r.package ci.name) file_path) ci.name file_path) cm
    r.interfaces.foldl (fun cm ii =>
      dictInsert (dictInsert cm (fullTypeName r.package ii.name) file_path) ii.name file_path) cm

/-- The Project Index: `class_map` after iterating over all files in order. -/
def buildClassMap (files : List (String × FileRecord)) : ClassMap :=
  files.foldl (fun cm pr => registerFileTypes cm pr.1 pr.2) []

/-- The internality heuristic of `java_ast_v2.analyze_relationships`
(lines 279-285): an import path counts as internal when some indexed name is
a suffix of it or is itself one of its dot-segments. -/
def importIsInternal (cm : ClassMap) (import_path : String) : Bool :=
  cm.any (fun kv => pyEndsWith import_path kv.1 || (pySplitDot import_path).contains kv.1)

/-- Import-dependency records of one file (v2, lines 277-294): an import
produces a record only when the internality heuristic fires or the path is
exactly indexed; the `file` key is set exactly when the path is exactly
indexed. -/
def importDeps (cm : ClassMap) (imports : List String) : List Dependency :=
  imports.filterMap (fun imp =>
    if importIsInternal cm imp || dictMem cm imp then
      some { dtype := "import", target := imp, file := dictLookup cm imp }
    else none)

/-- Extends/implements dependency records of one file (lines 296-313). -/
def typeDeps (cm : ClassMap) (classes : List ClassInfo) : List Dependency :=
  classes.foldl (fun acc ci =>
    let acc := if pyTruthy ci.extendsName then
        acc ++ [{ dtype := "extends", target := ci.extendsName.getD "",
                  file := dictLookup cm (ci.extendsName.getD "") }]
      else acc
    acc ++ ci.implements.map (fun i =>
      { dtype := "implements", target := i, file := dictLookup cm i })) []

/-- All dependency records computed for one file record. -/
def computeDeps (cm : ClassMap) (r : FileRecord) : List Dependency :=
  importDeps cm r.imports ++ typeDeps cm r.classes

/-- Store the computed dependencies on a declaration record
(`file_info['dependencies'] = dependencies`); error records are skipped by
the resolver loop and stay unchanged. -/
def setDependencies (r : FileRecord) (deps : List Dependency) : FileRecord :=
  match r with
  | .err m => .err m
  | .ok fi => .ok { fi with dependencies := deps }

/-- `java_ast_v2.analyze_relationships`: build the index over all files, then
attach dependency records to every non-error file. -/
def analyze_relationships (files : List (String × FileRecord)) : List (String × FileRecord) :=
  let cm := buildClassMap files
  files.map (fun pr =>
    if pr.2.hasError then pr else (pr.1, setDependencies pr.2 (computeDeps cm pr.2)))

end JavaAstV2

namespace JavaAst

/-- The class-map contribution of one file in the older
`java_ast.analyze_relationships` (lines 120-130): identical to the v2 variant
except that only classes are registered, not interfaces. -/
def registerFileTypes (cm : ClassMap) (file_path : String) (r : FileRecord) : ClassMap :=
  if r.hasError then cm
  else
    r.classes.foldl (fun cm ci =>
      dictInsert (dictInsert cm (fullTypeName r.package ci.name) file_path) ci.name file_path) cm

/-- The older Project Index. -/
def buildClassMap (files : List (String × FileRecord)) : ClassMap :=
  files.foldl (fun cm pr => registerFileTypes cm pr.1 pr.2) []

/-- Import-dependency records in `java_ast.analyze_relationships`
(lines 140-147): every import unconditionally produces a record; the `file`
key is set exactly when the path is indexed. -/
def importDeps (cm : ClassMap) (imports : List String) : List Dependency :=
  imports.map (fun imp =>
    { dtype := "import", target := imp, file := dictLookup cm imp })

/-- All dependency records of one file in the older resolver (imports are
unconditional, extends/implements identical to v2). -/
def computeDeps (cm : ClassMap) (r : FileRecord) : List Dependency :=
  importDeps cm r.imports ++ JavaAstV2.typeDeps cm r.classes

end JavaAst

/-! ## The AST extractor's method records (`java_ast_v2.extract_ast_info`)

The parser (javalang) and the two helper calls per method — the LLM-generated
description (`generate_method_description`) and the brace-counting body text
(`extract_method_body`) — are external collaborators here; their results are
inputs to the record construction. -/

/-- A javalang type node, as consumed through its `.name` attribute. -/
structure JTypeRef where
  name : String
deriving DecidableEq, Repr

/-- The slice of a javalang method declaration node that
`extract_ast_info` reads when building a method record: `method.name`,
`method.return_type` (absent for `void` methods and constructors), and
`method.documentation`. -/
structure JMethodDecl where
  name : String
  return_type : Option JTypeRef
  documentation : Option String
deriving DecidableEq, Repr

/-- The `method_info` dict built by `java_ast_v2.extract_ast_info`
(lines 135-142 for classes, 180-187 for interfaces): the extracted record
keeps `method.return_type.name if method.return_type else None` — absence is
recorded as `None`, not as a sentinel.  `description` is the generated
summary, `body` the extracted body text, `params` the assembled parameter
list. -/
def extractMethodInfo (description : String) (body : Option String)
    (params : List ParamInfo) (m : JMethodDecl) : MethodInfo :=
  { name := m.name
    return_type := m.return_type.map JTypeRef.name
    parameters := params
    documentation := m.documentation
    description := some description
    body := body }

/-! ## Lexical object references (`java_ast_analyzer.py`) -/

/-- The fixed exclusion set of `find_object_references` (line 121). -/
def primitives : List String :=
  ["int", "long", "double", "float", "boolean", "char", "byte", "short", "void", "String"]

/-- `java_ast_analyzer.find_object_references` (lines 103-124): given the
method body (`None` or text) and the three regex `findall` result lists
(`new X(` constructions, `X.y(` calls, `X v =`/`X v;` declarations — the
regex engine is the external scanner producing them), return the
deduplicated union with the primitive names filtered out; a falsy body
yields `[]`. -/
def find_object_references (method_body : Option String)
    (new_objects static_calls var_declarations : List String) : List String :=
  if !(pyTruthy method_body) then []
  else
    let ref_objects := (new_objects ++ static_calls ++ var_declarations).dedup
    ref_objects.filter (fun obj => decide (obj ∉ primitives))

/-- A method dict of `java_ast_analyzer.extract_class_methods`
(lines 153-159). -/
structure AnalyzerMethod where
  name : String
  return_type : Option String
  parameters : List ParamInfo
  body : Option String
  referenced_objects : List String
deriving DecidableEq, Repr

/-- A class dict of `java_ast_analyzer.extract_ast_info` (lines 272-278). -/
structure AnalyzerClass where
  name : String
  extendsName : Option String
  implements : List String
  fields : List FieldInfo
  methods : List AnalyzerMethod
deriving DecidableEq, Repr

/-- One entry of `info['object_references']`; `cls` models the JSON key
`class` (the declaring class). -/
structure ObjRef where
  cls : String
  method : String
  referenced_object : String
deriving DecidableEq, Repr

/-- The object-reference entries contributed by one class
(`java_ast_analyzer.extract_ast_info` lines 280-288): every referenced
object of every method, except references to the declaring class itself. -/
def classObjectRefs (class_name : String) (methods : List AnalyzerMethod) : List ObjRef :=
  methods.foldl (fun acc mi =>
    acc ++ mi.referenced_objects.filterMap (fun r =>
      if r ≠ class_name then
        some { cls := class_name, method := mi.name, referenced_object := r }
      else none)) []

/-- The whole file's `object_references` list, accumulated over its
classes. -/
def fileObjectRefs (classes : List AnalyzerClass) : List ObjRef :=
  classes.foldl (fun acc ci => acc ++ classObjectRefs ci.name ci.methods) []

/-! ## Property-graph store semantics

`CodeAnalyzerGraphLoader` issues a fixed repertoire of Cypher statements:
`CREATE (n:L {...})`, `MERGE (n:L {...})`, and
`MATCH a MATCH b MERGE (a)-[:R]->(b)`.  The model below gives these an
operational semantics on an explicit store state.  Nodes carry an internal
identity `nid` (allocated on creation, used as edge endpoints and never
exposed as data), a label, and a property map.  `MERGE` on a node pattern
matches any node carrying the label and the listed property values, and
creates the node only when no match exists; `MERGE` on a relationship adds
the edge for every pair of matched endpoints unless it is already present;
a `MATCH` that finds nothing makes the statement a no-op (and never an
error). -/

/-- A stored node: internal identity, label, property map. -/
structure GNode where
  nid : Nat
  label : String
  props : List (String × String)
deriving DecidableEq, Repr

/-- A stored relationship between two node identities. -/
structure GEdge where
  src : Nat
  rel : String
  dst : Nat
deriving DecidableEq, Repr

/-- The store state. -/
structure Graph where
  nodes : List GNode
  edges : List GEdge
deriving DecidableEq, Repr

/-- The empty store. -/
def Graph.empty : Graph := ⟨[], []⟩

/-- Value of property `k` in a property map. -/
def propLookup (props : List (String × String)) (k : String) : Option String :=
  (props.find? (fun kv => kv.1 == k)).map (fun kv => kv.2)

/-- Whether a node matches a Cypher node pattern: it carries the label (when
one is given) and each listed property with the listed value. -/
def nodeMatchesB (lbl : Option String) (ps : List (String × String)) (n : GNode) : Bool :=
  (match lbl with | some l => n.label == l | none => true) &&
  ps.all (fun kv => propLookup n.props kv.1 == some kv.2)

/-- `MATCH (n:lbl {ps})`: the identities of all matching nodes. -/
def matchIds (g : Graph) (lbl : Option String) (ps : List (String × String)) : List Nat :=
  (g.nodes.filter (nodeMatchesB lbl ps)).map (fun n => n.nid)

/-- Append a fresh node with the given label and properties. -/
def addNode (g : Graph) (lbl : String) (ps : List (String × String)) : Graph :=
  { g with nodes := g.nodes ++ [⟨g.nodes.length, lbl, ps⟩] }

/-- `CREATE (n:lbl {ps})`: always adds a fresh node. -/
def createNode (g : Graph) (lbl : String) (ps : List (String × String)) : Graph :=
  addNode g lbl ps

/-- `MERGE (n:lbl {ps})`: a no-op when a matching node exists, otherwise a
create. -/
def mergeNode (g : Graph) (lbl : String) (ps : List (String × String)) : Graph :=
  if g.nodes.any (nodeMatchesB (some lbl) ps) then g else addNode g lbl ps

/-- `MERGE (a)-[:rel]->(b)` for one concrete endpoint pair. -/
def mergeEdge1 (g : Graph) (e : GEdge) : Graph :=
  if e ∈ g.edges then g else { g with edges := g.edges ++ [e] }

/-- The cartesian product of two `MATCH` result sets. -/
def pairsOf (xs ys : List Nat) : List (Nat × Nat) :=
  xs.foldr (fun x acc => ys.map (fun y => (x, y)) ++ acc) []

/-- Merge an edge for every endpoint pair. -/
def mergeEdgePairs (g : Graph) (ps : List (Nat × Nat)) (rel : String) : Graph :=
  ps.foldl (fun g pr => mergeEdge1 g ⟨pr.1, rel, pr.2⟩) g

/-- The statement form `MATCH (a:sl {sp}) MATCH (b:dl {dp})
MERGE (a)-[:rel]->(b)` used by every relationship-creating query of the
loader. -/
def mergeEdgeQuery (g : Graph) (sl : Option String) (sp : List (String × String))
    (dl : Option String) (dp : List (String × String)) (rel : String) : Graph :=
  mergeEdgePairs g (pairsOf (matchIds g sl sp) (matchIds g dl dp)) rel

/-! ### Observations on the store, used to state the claims. -/

/-- Whether some node matches a label/property pattern. -/
def nodeExistsB (g : Graph) (lbl : String) (ps : List (String × String)) : Bool :=
  g.nodes.any (nodeMatchesB (some lbl) ps)

/-- Number of distinct stored nodes matching a label/property pattern. -/
def countNodesB (g : Graph) (lbl : String) (ps : List (String × String)) : Nat :=
  (g.nodes.filter (nodeMatchesB (some lbl) ps)).length

/-- Whether a relationship `rel` connects a node matching the source pattern
to a node matching the destination pattern. -/
def edgeExistsB (g : Graph) (sl : Option String) (sp : List (String × String))
    (dl : Option String) (dp : List (String × String)) (rel : String) : Bool :=
  (pairsOf (matchIds g sl sp) (matchIds g dl dp)).any
    (fun pr => decide ((⟨pr.1, rel, pr.2⟩ : GEdge) ∈ g.edges))

/-! ## The graph loader (`graph_upsert_v2.CodeAnalyzerGraphLoader`) -/

namespace CodeAnalyzerGraphLoader

/-- `_clear_database` (lines 185-189): `MATCH (n) DETACH DELETE n` removes
every node and relationship.  Internal node identities carry no data, so the
cleared store is the empty store. -/
def clear_database (_g : Graph) : Graph := Graph.empty

/-- `_create_project` (lines 191-200): an unconditional `CREATE`. -/
def create_project (g : Graph) (name path : String) : Graph :=
  createNode g "Project" [("name", name), ("path", path)]

/-- `_create_package` (lines 202-210): `MERGE (p:Package {name})`. -/
def create_package (g : Graph) (name : String) : Graph :=
  mergeNode g "Package" [("name", name)]

/-- The `(parent, child)` dotted-prefix pairs the hierarchy loop visits for
one package name: `('.'.join(parts[:i]), '.'.join(parts[:i+1]))` for
`i in range(1, len(parts))`. -/
def pkgChainPairs (package : String) : List (String × String) :=
  let parts := pySplitDot package
  ((List.range parts.length).drop 1).map (fun i =>
    (joinDot (parts.take i), joinDot (parts.take (i + 1))))

/-- One iteration of the hierarchy loop body (lines 223-229): when both names
are non-empty, `MATCH` both packages and `MERGE` the `CONTAINS` edge; a
missing endpoint makes the statement a no-op. -/
def hierEdgeStep (g : Graph) (pq : String × String) : Graph :=
  if pq.1 ≠ "" ∧ pq.2 ≠ "" then
    mergeEdgeQuery g (some "Package") [("name", pq.1)]
      (some "Package") [("name", pq.2)] "CONTAINS"
  else g

/-- `_create_package_hierarchy` (lines 212-231): iterate over
`sorted(packages)` (the deduplicated set of observed names) and merge the
prefix-chain edges of each. -/
def create_package_hierarchy (g : Graph) (packages : List String) : Graph :=
  (sortStrings (uniqStrings packages)).foldl
    (fun g pkg => (pkgChainPairs pkg).foldl hierEdgeStep g) g

/-- `_create_file` (lines 233-259): merge the File node; when the package is
truthy, merge the Package→File `CONTAINS` edge; always merge the
Project→File `CONTAINS` edge (the Project pattern carries no properties). -/
def create_file (g : Graph) (file_name file_path : String) (package_name : Option String) : Graph :=
  let g := mergeNode g "File" [("name", file_name), ("path", file_path)]
  let g := if pyTruthy package_name then
      mergeEdgeQuery g (some "Package") [("name", package_name.getD "")]
        (some "File") [("path", file_path)] "CONTAINS"
    else g
  mergeEdgeQuery g (some "Project") [] (some "File") [("path", file_path)] "CONTAINS"

/-- `_create_import` (lines 261-268): `MERGE (i:Import {name})`. -/
def create_import (g : Graph) (import_name : String) : Graph :=
  mergeNode g "Import" [("name", import_name)]

/-- `_create_file_imports_relationship` (lines 270-277). -/
def create_file_imports_relationship (g : Graph) (file_path import_name : String) : Graph :=
  mergeEdgeQuery g (some "File") [("path", file_path)]
    (some "Import") [("name", import_name)] "IMPORTS"

/-- `_create_class` (lines 279-307): merge the Class node keyed by all three
listed properties, then the Package→Class (when the package is truthy) and
File→Class `CONTAINS` edges. -/
def create_class (g : Graph) (name fullName extendsProp : String)
    (package_name : Option String) (file_path : String) : Graph :=
  let g := mergeNode g "Class"
    [("name", name), ("fullName", fullName), ("extends", extendsProp)]
  let g := if pyTruthy package_name then
      mergeEdgeQuery g (some "Package") [("name", package_name.getD "")]
        (some "Class") [("fullName", fullName)] "CONTAINS"
    else g
  mergeEdgeQuery g (some "File") [("path", file_path)]
    (some "Class") [("fullName", fullName)] "CONTAINS"

/-- `_create_field` (lines 309-332): the field id is
`f"{class_full_name}.{name}"`; merge the Field node on all four listed
properties, then the Class→Field `HAS_FIELD` edge. -/
def create_field (g : Graph) (name type class_full_name : String) : Graph :=
  let field_id := class_full_name ++ "." ++ name
  let g := mergeNode g "Field"
    [("name", name), ("type", type), ("id", field_id), ("class_name", class_full_name)]
  mergeEdgeQuery g (some "Class") [("fullName", class_full_name)]
    (some "Field") [("id", field_id)] "HAS_FIELD"

/-- `_create_interface` (lines 334-361). -/
def create_interface (g : Graph) (name fullName : String)
    (package_name : Option String) (file_path : String) : Graph :=
  let g := mergeNode g "Interface" [("name", name), ("fullName", fullName)]
  let g := if pyTruthy package_name then
      mergeEdgeQuery g (some "Package") [("name", package_name.getD "")]
        (some "Interface") [("fullName", fullName)] "CONTAINS"
    else g
  mergeEdgeQuery g (some "File") [("path", file_path)]
    (some "Interface") [("fullName", fullName)] "CONTAINS"

/-- The `method_properties` dict assembled by `load_project` before calling
`_create_method`. -/
structure MethodProps where
  name : String
  returnType : String
  documentation : String
  description : String
  body : String
  parent_name : String
deriving DecidableEq, Repr

/-- The derived method id `f"{parent_name}.{name}"` computed by
`_create_method` and returned to the caller. -/
def method_node_id (parent_name name : String) : String :=
  parent_name ++ "." ++ name

/-- The full property map of the `MERGE (m:Method {...})` statement. -/
def methodNodeProps (p : MethodProps) : List (String × String) :=
  [("name", p.name), ("id", method_node_id p.parent_name p.name),
   ("returnType", p.returnType), ("documentation", p.documentation),
   ("description", p.description), ("body", p.body),
   ("parent_name", p.parent_name)]

/-- `_create_method` (lines 363-398): merge the Method node on its full
property map, then `MATCH (c {fullName: parent})` (no label) and
`MATCH (m:Method {id})` and merge the `DECLARES` edge. -/
def create_method (g : Graph) (p : MethodProps) : Graph :=
  let method_id := method_node_id p.parent_name p.name
  let g := mergeNode g "Method" (methodNodeProps p)
  mergeEdgeQuery g none [("fullName", p.parent_name)]
    (some "Method") [("id", method_id)] "DECLARES"

/-- `_create_parameter` (lines 400-423): the parameter id is
`f"{method_id}.{name}"`; merge the Parameter node, then the
Method→Parameter `HAS_PARAMETER` edge. -/
def create_parameter (g : Graph) (name type method_id : String) : Graph :=
  let param_id := method_id ++ "." ++ name
  let g := mergeNode g "Parameter"
    [("name", name), ("type", type), ("id", param_id), ("method_id", method_id)]
  mergeEdgeQuery g (some "Method") [("id", method_id)]
    (some "Parameter") [("id", param_id)] "HAS_PARAMETER"

/-- `_create_extends_relationship` (lines 425-433): `MATCH` the child by
`fullName` and the parent by `name`, both without any label, and merge the
`EXTENDS` edge; with no matching parent the statement does nothing. -/
def create_extends_relationship (g : Graph) (child_full_name parent_name : String) : Graph :=
  mergeEdgeQuery g none [("fullName", child_full_name)]
    none [("name", parent_name)] "EXTENDS"

/-- `_create_implements_relationship` (lines 435-443): `MATCH` the class by
`fullName` and the interface by simple `name`, merge `IMPLEMENTS`. -/
def create_implements_relationship (g : Graph) (class_full_name interface_name : String) : Graph :=
  mergeEdgeQuery g (some "Class") [("fullName", class_full_name)]
    (some "Interface") [("name", interface_name)] "IMPLEMENTS"

/-- `_create_file_depends_on_relationship` (lines 445-453). -/
def create_file_depends_on_relationship (g : Graph) (source_file target_file : String) : Graph :=
  mergeEdgeQuery g (some "File") [("path", source_file)]
    (some "File") [("path", target_file)] "DEPENDS_ON"

/-- The `method_properties` dict assembled by the per-method loop of
`load_project` (lines 89-96 and 143-150): falsy extracted values are
normalized to the sentinels — `"void"` for the return type and `""` for
documentation, description and body. -/
def methodPropsOf (parent : String) (mi : MethodInfo) : MethodProps :=
  { name := mi.name
    returnType := pyStrOr mi.return_type "void"
    documentation := pyStrOr mi.documentation ""
    description := pyStrOr mi.description ""
    body := pyStrOr mi.body ""
    parent_name := parent }

/-- The per-method part of the per-class and per-interface loops of
`load_project` (lines 82-111 and 136-165): assemble `method_properties`,
create the method node, then create its parameter nodes with the returned
method id. -/
def processMethod (g : Graph) (parent : String) (mi : MethodInfo) : Graph :=
  let g := create_method g (methodPropsOf parent mi)
  let method_id := method_node_id parent mi.name
  mi.parameters.foldl (fun g p =>
    create_parameter g p.name (pyStrOr p.type "") method_id) g

/-- The per-class part of the file loop of `load_project` (lines 54-119):
class node, field nodes, method nodes, then the extends relationship (when
the raw target is truthy) and one implements relationship per raw name. -/
def processClass (g : Graph) (package : Option String) (file_path : String)
    (ci : ClassInfo) : Graph :=
  let full_class_name := fullTypeName package ci.name
  let g := create_class g ci.name full_class_name (pyStrOr ci.extendsName "") package file_path
  let g := ci.fields.foldl (fun g f =>
    create_field g f.name (f.type.getD "") full_class_name) g
  let g := ci.methods.foldl (fun g mi => processMethod g full_class_name mi) g
  let g := if pyTruthy ci.extendsName then
      create_extends_relationship g full_class_name (ci.extendsName.getD "")
    else g
  ci.implements.foldl (fun g i =>
    create_implements_relationship g full_class_name i) g

/-- The per-interface part of the file loop of `load_project`
(lines 121-169). -/
def processInterface (g : Graph) (package : Option String) (file_path : String)
    (ii : InterfaceInfo) : Graph :=
  let full_interface_name := fullTypeName package ii.name
  let g := create_interface g ii.name full_interface_name package file_path
  let g := ii.methods.foldl (fun g mi => processMethod g full_interface_name mi) g
  ii.extendsNames.foldl (fun g e =>
    create_extends_relationship g full_interface_name e) g

/-- The body of the per-file loop of `load_project` (lines 41-169).  Note
that, unlike `graph.JavaProjectGraphLoader.load_project`, this loop has no
`if 'error' in file_info: continue` guard: an error record still reaches
`_create_file` (its other keys default to `None`/`[]`). -/
def processFile (g : Graph) (file_path : String) (r : FileRecord) : Graph :=
  let package := r.package
  let file_name := basename file_path
  let g := create_file g file_name file_path package
  let g := r.imports.foldl (fun g imp =>
    create_file_imports_relationship (create_import g imp) file_path imp) g
  let g := r.classes.foldl (fun g ci => processClass g package file_path ci) g
  r.interfaces.foldl (fun g ii => processInterface g package file_path ii) g

/-- The package names observed by the package pass (lines 29-35): each file's
truthy `package` value, in file order (the Python code accumulates them into
a set; deduplication happens in `_create_package_hierarchy`'s
`sorted(packages)`, modelled inside `create_package_hierarchy`). -/
def observedPackages (files : List (String × FileRecord)) : List String :=
  files.filterMap (fun pr =>
    if pyTruthy pr.2.package then some (pr.2.package.getD "") else none)

/-- One step of the package pass: create the Package node when the file's
package is truthy. -/
def packageStep (g : Graph) (pr : String × FileRecord) : Graph :=
  if pyTruthy pr.2.package then create_package g (pr.2.package.getD "") else g

/-- One step of the dependency pass (lines 172-175): a `DEPENDS_ON` edge for
every dependency of type `import` carrying a truthy `file` value. -/
def dependencyStep (file_path : String) (g : Graph) (d : Dependency) : Graph :=
  if d.dtype == "import" && pyTruthy d.file then
    create_file_depends_on_relationship g file_path (d.file.getD "")
  else g

/-- `load_project` (lines 15-177) run against a store in state `g0`: clear
the store, create the Project node, create Package nodes, build the package
hierarchy, process every file, then create the `DEPENDS_ON` edges. -/
def load_project (pd : ProjectData) (g0 : Graph) : Graph :=
  let g := clear_database g0
  let g := create_project g (basename pd.project_path) pd.project_path
  let g := pd.files.foldl packageStep g
  let g := create_package_hierarchy g (observedPackages pd.files)
  let g := pd.files.foldl (fun g pr => processFile g pr.1 pr.2) g
  pd.files.foldl (fun g pr => pr.2.dependencies.foldl (dependencyStep pr.1) g) g

end CodeAnalyzerGraphLoader

/-! ## Store lemmas

Every statement the loader issues only ever adds nodes and edges; `GraphLE`
captures this growth order, and the claim-level predicates below are
monotone along it. -/

/-- Growth order on store states: every node and edge is preserved. -/
def GraphLE (g g' : Graph) : Prop :=
  (∀ n ∈ g.nodes, n ∈ g'.nodes) ∧ (∀ e ∈ g.edges, e ∈ g'.edges)

theorem GraphLE.refl (g : Graph) : GraphLE g g :=
  ⟨fun _ h => h, fun _ h => h⟩

theorem GraphLE.trans {g1 g2 g3 : Graph} (h1 : GraphLE g1 g2) (h2 : GraphLE g2 g3) :
    GraphLE g1 g3 :=
  ⟨fun n hn => h2.1 n (h1.1 n hn), fun e he => h2.2 e (h1.2 e he)⟩

/-- Some node matches the pattern. -/
def nodeExists (g : Graph) (lbl : Option String) (ps : List (String × String)) : Prop :=
  ∃ n ∈ g.nodes, nodeMatchesB lbl ps n = true

/-- Node identity `i` belongs to a node matching the pattern. -/
def matchedBy (g : Graph) (lbl : Option String) (ps : List (String × String)) (i : Nat) : Prop :=
  ∃ n ∈ g.nodes, n.nid = i ∧ nodeMatchesB lbl ps n = true

/-- A `rel`-relationship connects a node matching the source pattern to a
node matching the destination pattern. -/
def relBetween (g : Graph) (sl : Option String) (sp : List (String × String))
    (dl : Option String) (dp : List (String × String)) (rel : String) : Prop :=
  ∃ e ∈ g.edges, e.rel = rel ∧ matchedBy g sl sp e.src ∧ matchedBy g dl dp e.dst

theorem nodeExists_mono {g g' : Graph} {lbl ps} (h : GraphLE g g')
    (hx : nodeExists g lbl ps) : nodeExists g' lbl ps := by
  obtain ⟨n, hn, hm⟩ := hx
  exact ⟨n, h.1 n hn, hm⟩

theorem matchedBy_mono {g g' : Graph} {lbl ps i} (h : GraphLE g g')
    (hx : matchedBy g lbl ps i) : matchedBy g' lbl ps i := by
  obtain ⟨n, hn, hi, hm⟩ := hx
  exact ⟨n, h.1 n hn, hi, hm⟩

theorem relBetween_mono {g g' : Graph} {sl sp dl dp rel} (h : GraphLE g g')
    (hx : relBetween g sl sp dl dp rel) : relBetween g' sl sp dl dp rel := by
  obtain ⟨e, he, hr, hs, hd⟩ := hx
  exact ⟨e, h.2 e he, hr, matchedBy_mono h hs, matchedBy_mono h hd⟩

theorem mem_matchIds {g : Graph} {lbl ps i} :
    i ∈ matchIds g lbl ps ↔ matchedBy g lbl ps i := by
  unfold matchIds matchedBy
  constructor
  · intro h
    obtain ⟨n, hn, hi⟩ := List.mem_map.mp h
    exact ⟨n, (List.mem_filter.mp hn).1, hi, (List.mem_filter.mp hn).2⟩
  · intro ⟨n, hn, hi, hm⟩
    exact List.mem_map.mpr ⟨n, List.mem_filter.mpr ⟨hn, hm⟩, hi⟩

theorem addNode_le {g : Graph} {lbl ps} : GraphLE g (addNode g lbl ps) :=
  ⟨fun _ hn => List.mem_append_left _ hn, fun _ he => he⟩

theorem mergeNode_le {g : Graph} {lbl ps} : GraphLE g (mergeNode g lbl ps) := by
  unfold mergeNode
  split
  · exact GraphLE.refl g
  · exact addNode_le

theorem mergeEdge1_le {g : Graph} {e : GEdge} : GraphLE g (mergeEdge1 g e) := by
  unfold mergeEdge1
  split
  · exact GraphLE.refl g
  · exact ⟨fun _ hn => hn, fun x hx => List.mem_append_left _ hx⟩

theorem foldl_le {α : Type} {f : Graph → α → Graph}
    (hf : ∀ g a, GraphLE g (f g a)) :
    ∀ (l : List α) (g : Graph), GraphLE g (l.foldl f g) := by
  intro l
  induction l with
  | nil => exact fun g => GraphLE.refl g
  | cons a t ih => exact fun g => GraphLE.trans (hf g a) (ih (f g a))

theorem mergeEdgePairs_le {g : Graph} {prs rel} : GraphLE g (mergeEdgePairs g prs rel) :=
  foldl_le (fun _ _ => mergeEdge1_le) prs g

theorem mergeEdgeQuery_le {g : Graph} {sl sp dl dp rel} :
    GraphLE g (mergeEdgeQuery g sl sp dl dp rel) :=
  mergeEdgePairs_le

theorem le_ite {c : Prop} [Decidable c] {g g1 g2 : Graph}
    (h1 : GraphLE g g1) (h2 : GraphLE g g2) : GraphLE g (if c then g1 else g2) := by
  split
  · exact h1
  · exact h2

/-- If a fold step establishes a monotone property at some element and a
monotone precondition holds at entry, the property holds after the fold. -/
theorem foldl_estab {α : Type} (f : Graph → α → Graph) (P Q : Graph → Prop) (x : α)
    (hf : ∀ g a, GraphLE g (f g a))
    (hQ : ∀ {g g'}, GraphLE g g' → Q g → Q g')
    (hP : ∀ {g g'}, GraphLE g g' → P g → P g')
    (hest : ∀ g, Q g → P (f g x)) :
    ∀ (l : List α) (g : Graph), x ∈ l → Q g → P (l.foldl f g) := by
  intro l
  induction l with
  | nil => intro g hx; exact absurd hx (List.not_mem_nil x)
  | cons a t ih =>
    intro g hx hq
    rcases List.mem_cons.mp hx with h | h
    · subst h
      exact hP (foldl_le hf t (f g x)) (hest g hq)
    · exact ih (f g a) h (hQ (hf g a) hq)

/-! ### MERGE on nodes -/

theorem propLookup_self {ps : List (String × String)} {kv : String × String}
    (hnd : (ps.map Prod.fst).Nodup) (hm : kv ∈ ps) :
    propLookup ps kv.1 = some kv.2 := by
  induction ps with
  | nil => exact absurd hm (List.not_mem_nil kv)
  | cons a t ih =>
    rcases List.mem_cons.mp hm with h | h
    · subst h
      unfold propLookup
      rw [List.find?_cons_of_pos _ (by simp)]
      rfl
    · have hne : a.1 ≠ kv.1 := by
        intro he
        have : kv.1 ∈ t.map Prod.fst := List.mem_map.mpr ⟨kv, h, rfl⟩
        rw [List.map_cons] at hnd
        exact (List.nodup_cons.mp hnd).1 (he ▸ this)
      unfold propLookup
      rw [List.find?_cons_of_neg _ (by simp [hne])]
      exact ih (List.nodup_cons.mp (by rw [List.map_cons] at hnd; exact hnd)).2 h

theorem nodeMatchesB_self {lbl : String} {ps : List (String × String)} {i : Nat}
    (hnd : (ps.map Prod.fst).Nodup) :
    nodeMatchesB (some lbl) ps ⟨i, lbl, ps⟩ = true := by
  unfold nodeMatchesB
  simp only [Bool.and_eq_true, List.all_eq_true]
  refine ⟨by simp, fun kv hm => ?_⟩
  simp [propLookup_self hnd hm]

theorem mergeNode_exists {g : Graph} {lbl : String} {ps : List (String × String)}
    (hnd : (ps.map Prod.fst).Nodup) :
    nodeExists (mergeNode g lbl ps) (some lbl) ps := by
  unfold mergeNode
  split
  · next h =>
    obtain ⟨n, hn, hm⟩ := List.any_eq_true.mp h
    exact ⟨n, hn, hm⟩
  · exact ⟨⟨g.nodes.length, lbl, ps⟩, List.mem_append_right _ (List.mem_singleton.mpr rfl),
      nodeMatchesB_self hnd⟩

theorem mergeNode_of_exists {g : Graph} {lbl : String} {ps : List (String × String)}
    (h : nodeExists g (some lbl) ps) : mergeNode g lbl ps = g := by
  obtain ⟨n, hn, hm⟩ := h
  unfold mergeNode
  rw [if_pos (List.any_eq_true.mpr ⟨n, hn, hm⟩)]

/-! ### MERGE on relationships -/

theorem mergeEdge1_nodes {g : Graph} {e : GEdge} : (mergeEdge1 g e).nodes = g.nodes := by
  unfold mergeEdge1
  split <;> rfl

theorem mergeEdge1_mem {g : Graph} {e x : GEdge} :
    e ∈ (mergeEdge1 g x).edges ↔ e ∈ g.edges ∨ e = x := by
  unfold mergeEdge1
  split
  · next h =>
    constructor
    · exact fun he => Or.inl he
    · rintro (he | rfl)
      · exact he
      · exact h
  · simp [List.mem_append]

theorem mergeEdgePairs_nodes {g : Graph} {prs rel} :
    (mergeEdgePairs g prs rel).nodes = g.nodes := by
  induction prs generalizing g with
  | nil => rfl
  | cons a t ih =>
    show (mergeEdgePairs (mergeEdge1 g ⟨a.1, rel, a.2⟩) t rel).nodes = g.nodes
    rw [ih, mergeEdge1_nodes]

theorem mergeEdgePairs_mem {g : Graph} {prs : List (Nat × Nat)} {rel : String} {e : GEdge} :
    e ∈ (mergeEdgePairs g prs rel).edges ↔
      e ∈ g.edges ∨ ((e.src, e.dst) ∈ prs ∧ e.rel = rel) := by
  induction prs generalizing g with
  | nil => simp [mergeEdgePairs]
  | cons a t ih =>
    show e ∈ (mergeEdgePairs (mergeEdge1 g ⟨a.1, rel, a.2⟩) t rel).edges ↔ _
    rw [ih, mergeEdge1_mem]
    constructor
    · rintro ((he | rfl) | ⟨hm, hr⟩)
      · exact Or.inl he
      · exact Or.inr ⟨List.mem_cons_self _ _, rfl⟩
      · exact Or.inr ⟨List.mem_cons_of_mem _ hm, hr⟩
    · rintro (he | ⟨hm, hr⟩)
      · exact Or.inl (Or.inl he)
      · rcases List.mem_cons.mp hm with h | h
        · refine Or.inl (Or.inr ?_)
          obtain ⟨s, r, d⟩ := e
          rw [← h]
          simp only at hr
          simp [hr]
        · exact Or.inr ⟨h, hr⟩

theorem mergeEdgePairs_adds {g : Graph} {prs : List (Nat × Nat)} {rel : String}
    {pr : Nat × Nat} (h : pr ∈ prs) :
    (⟨pr.1, rel, pr.2⟩ : GEdge) ∈ (mergeEdgePairs g prs rel).edges :=
  mergeEdgePairs_mem.mpr (Or.inr ⟨h, rfl⟩)

theorem mergeEdgePairs_id {g : Graph} {prs : List (Nat × Nat)} {rel : String}
    (h : ∀ pr ∈ prs, (⟨pr.1, rel, pr.2⟩ : GEdge) ∈ g.edges) :
    mergeEdgePairs g prs rel = g := by
  induction prs with
  | nil => rfl
  | cons a t ih =>
    show mergeEdgePairs (mergeEdge1 g ⟨a.1, rel, a.2⟩) t rel = g
    have ha : mergeEdge1 g ⟨a.1, rel, a.2⟩ = g := by
      unfold mergeEdge1
      rw [if_pos (h a (List.mem_cons_self a t))]
    rw [ha]
    exact ih (fun pr hpr => h pr (List.mem_cons_of_mem a hpr))

theorem pairsOf_mem {xs ys : List Nat} {pr : Nat × Nat} :
    pr ∈ pairsOf xs ys ↔ pr.1 ∈ xs ∧ pr.2 ∈ ys := by
  induction xs with
  | nil => simp [pairsOf]
  | cons a t ih =>
    show pr ∈ ys.map (fun y => (a, y)) ++ pairsOf t ys ↔ _
    rw [List.mem_append, ih]
    constructor
    · rintro (h | ⟨h1, h2⟩)
      · obtain ⟨y, hy, he⟩ := List.mem_map.mp h
        cases he
        exact ⟨List.mem_cons_self _ _, hy⟩
      · exact ⟨List.mem_cons_of_mem _ h1, h2⟩
    · rintro ⟨h1, h2⟩
      rcases List.mem_cons.mp h1 with h | h
      · exact Or.inl (List.mem_map.mpr ⟨pr.2, h2, by cases pr; simp_all⟩)
      · exact Or.inr ⟨h, h2⟩

theorem pairsOf_nil_right {xs : List Nat} : pairsOf xs [] = [] := by
  induction xs with
  | nil => rfl
  | cons a t ih =>
    show ([] : List Nat).map (fun y => (a, y)) ++ pairsOf t [] = []
    rw [ih]
    rfl

theorem matchIds_congr {g g' : Graph} {lbl ps} (h : g.nodes = g'.nodes) :
    matchIds g lbl ps = matchIds g' lbl ps := by
  unfold matchIds
  rw [h]

theorem mergeEdgeQuery_nodes {g : Graph} {sl sp dl dp rel} :
    (mergeEdgeQuery g sl sp dl dp rel).nodes = g.nodes :=
  mergeEdgePairs_nodes

/-- Establishment lemma: when both endpoint patterns match some node,
`mergeEdgeQuery` leaves a `rel`-relationship between matching nodes. -/
theorem mergeEdgeQuery_estab {g : Graph} {sl sp dl dp rel}
    (hs : nodeExists g sl sp) (hd : nodeExists g dl dp) :
    relBetween (mergeEdgeQuery g sl sp dl dp rel) sl sp dl dp rel := by
  obtain ⟨ns, hns, hms⟩ := hs
  obtain ⟨nd, hnd, hmd⟩ := hd
  have hsrc : ns.nid ∈ matchIds g sl sp := mem_matchIds.mpr ⟨ns, hns, rfl, hms⟩
  have hdst : nd.nid ∈ matchIds g dl dp := mem_matchIds.mpr ⟨nd, hnd, rfl, hmd⟩
  have hpr : ((ns.nid, nd.nid) : Nat × Nat) ∈ pairsOf (matchIds g sl sp) (matchIds g dl dp) :=
    pairsOf_mem.mpr ⟨hsrc, hdst⟩
  refine ⟨⟨ns.nid, rel, nd.nid⟩, mergeEdgePairs_adds hpr, rfl, ?_, ?_⟩
  · have h := @mergeEdgeQuery_nodes g sl sp dl dp rel
    exact ⟨ns, h ▸ hns, rfl, hms⟩
  · have h := @mergeEdgeQuery_nodes g sl sp dl dp rel
    exact ⟨nd, h ▸ hnd, rfl, hmd⟩

/-! ### Monotonicity of every loader operation -/

namespace CodeAnalyzerGraphLoader

theorem create_package_le {g : Graph} {name : String} :
    GraphLE g (create_package g name) := mergeNode_le

theorem create_file_le {g : Graph} {fn fp : String} {pk : Option String} :
    GraphLE g (create_file g fn fp pk) := by
  unfold create_file
  exact GraphLE.trans mergeNode_le
    (GraphLE.trans (le_ite mergeEdgeQuery_le (GraphLE.refl _)) mergeEdgeQuery_le)

theorem create_import_le {g : Graph} {imp : String} :
    GraphLE g (create_import g imp) := mergeNode_le

theorem create_file_imports_relationship_le {g : Graph} {fp imp : String} :
    GraphLE g (create_file_imports_relationship g fp imp) := mergeEdgeQuery_le

theorem create_class_le {g : Graph} {n fn ex : String} {pk : Option String} {fp : String} :
    GraphLE g (create_class g n fn ex pk fp) := by
  unfold create_class
  exact GraphLE.trans mergeNode_le
    (GraphLE.trans (le_ite mergeEdgeQuery_le (GraphLE.refl _)) mergeEdgeQuery_le)

theorem create_field_le {g : Graph} {n t c : String} :
    GraphLE g (create_field g n t c) := by
  unfold create_field
  exact GraphLE.trans mergeNode_le mergeEdgeQuery_le

theorem create_interface_le {g : Graph} {n fn : String} {pk : Option String} {fp : String} :
    GraphLE g (create_interface g n fn pk fp) := by
  unfold create_interface
  exact GraphLE.trans mergeNode_le
    (GraphLE.trans (le_ite mergeEdgeQuery_le (GraphLE.refl _)) mergeEdgeQuery_le)

theorem create_method_le {g : Graph} {mp : MethodProps} :
    GraphLE g (create_method g mp) := by
  unfold create_method
  exact GraphLE.trans mergeNode_le mergeEdgeQuery_le

theorem create_parameter_le {g : Graph} {n t mid : String} :
    GraphLE g (create_parameter g n t mid) := by
  unfold create_parameter
  exact GraphLE.trans mergeNode_le mergeEdgeQuery_le

theorem create_extends_relationship_le {g : Graph} {c p : String} :
    GraphLE g (create_extends_relationship g c p) := mergeEdgeQuery_le

theorem create_implements_relationship_le {g : Graph} {c i : String} :
    GraphLE g (create_implements_relationship g c i) := mergeEdgeQuery_le

theorem create_file_depends_on_relationship_le {g : Graph} {s t : String} :
    GraphLE g (create_file_depends_on_relationship g s t) := mergeEdgeQuery_le

theorem processMethod_le {g : Graph} {parent : String} {mi : MethodInfo} :
    GraphLE g (processMethod g parent mi) := by
  unfold processMethod
  exact GraphLE.trans create_method_le
    (foldl_le (fun _ _ => create_parameter_le) _ _)

theorem processClass_le {g : Graph} {pk : Option String} {fp : String} {ci : ClassInfo} :
    GraphLE g (processClass g pk fp ci) := by
  unfold processClass
  exact GraphLE.trans create_class_le
    (GraphLE.trans (foldl_le (fun _ _ => create_field_le) _ _)
      (GraphLE.trans (foldl_le (fun _ _ => processMethod_le) _ _)
        (GraphLE.trans (le_ite create_extends_relationship_le (GraphLE.refl _))
          (foldl_le (fun _ _ => create_implements_relationship_le) _ _))))

theorem processInterface_le {g : Graph} {pk : Option String} {fp : String} {ii : InterfaceInfo} :
    GraphLE g (processInterface g pk fp ii) := by
  unfold processInterface
  exact GraphLE.trans create_interface_le
    (GraphLE.trans (foldl_le (fun _ _ => processMethod_le) _ _)
      (foldl_le (fun _ _ => create_extends_relationship_le) _ _))

theorem processFile_le {g : Graph} {fp : String} {r : FileRecord} :
    GraphLE g (processFile g fp r) := by
  unfold processFile
  exact GraphLE.trans create_file_le
    (GraphLE.trans
      (foldl_le (fun _ _ => GraphLE.trans create_import_le create_file_imports_relationship_le) _ _)
      (GraphLE.trans (foldl_le (fun _ _ => processClass_le) _ _)
        (foldl_le (fun _ _ => processInterface_le) _ _)))

theorem packageStep_le {g : Graph} {pr : String × FileRecord} :
    GraphLE g (packageStep g pr) := by
  unfold packageStep
  exact le_ite create_package_le (GraphLE.refl _)

theorem hierEdgeStep_le {g : Graph} {pq : String × String} :
    GraphLE g (hierEdgeStep g pq) := by
  unfold hierEdgeStep
  exact le_ite mergeEdgeQuery_le (GraphLE.refl _)

theorem dependencyStep_le {fp : String} {g : Graph} {d : Dependency} :
    GraphLE g (dependencyStep fp g d) := by
  unfold dependencyStep
  exact le_ite create_file_depends_on_relationship_le (GraphLE.refl _)

/-- A member of `observedPackages` comes from a file whose truthy package
value it is, and is never the empty string. -/
theorem mem_observedPackages {files : List (String × FileRecord)} {p : String}
    (h : p ∈ observedPackages files) :
    ∃ pr ∈ files, pyTruthy pr.2.package = true ∧ pr.2.package.getD "" = p ∧ p ≠ "" := by
  obtain ⟨pr, hpr, hv⟩ := List.mem_filterMap.mp h
  by_cases ht : pyTruthy pr.2.package = true
  · rw [if_pos ht] at hv
    refine ⟨pr, hpr, ht, Option.some.inj hv, ?_⟩
    cases hpk : pr.2.package with
    | none => rw [hpk] at ht; exact absurd ht (by simp [pyTruthy])
    | some s =>
      rw [hpk] at ht hv
      have hs : s ≠ "" := by
        intro he
        rw [he] at ht
        exact absurd ht (by simp [pyTruthy])
      have : s = p := by simpa using Option.some.inj hv
      exact this ▸ hs
  · rw [if_neg ht] at hv
    exact absurd hv (by simp)

/-- Creating a package establishes its Package node. -/
theorem packageStep_estab {g : Graph} {pr : String × FileRecord} {p : String}
    (ht : pyTruthy pr.2.package = true) (hv : pr.2.package.getD "" = p) :
    nodeExists (packageStep g pr) (some "Package") [("name", p)] := by
  unfold packageStep
  rw [if_pos ht, hv]
  exact mergeNode_exists (by simp)

/-- When both prefix packages exist, the hierarchy step leaves a `CONTAINS`
relationship between them. -/
theorem hierEdgeStep_estab {g : Graph} {p q : String}
    (hp : p ≠ "") (hq : q ≠ "")
    (h1 : nodeExists g (some "Package") [("name", p)])
    (h2 : nodeExists g (some "Package") [("name", q)]) :
    relBetween (hierEdgeStep g (p, q)) (some "Package") [("name", p)]
      (some "Package") [("name", q)] "CONTAINS" := by
  unfold hierEdgeStep
  rw [if_pos ⟨hp, hq⟩]
  exact mergeEdgeQuery_estab h1 h2

end CodeAnalyzerGraphLoader

/-! ### Sorting and deduplication membership -/

theorem mem_insertSorted {x y : String} {l : List String} :
    x ∈ insertSorted y l ↔ x = y ∨ x ∈ l := by
  induction l with
  | nil => simp [insertSorted]
  | cons a t ih =>
    unfold insertSorted
    split
    · simp
    · rw [List.mem_cons, ih, List.mem_cons]
      tauto

theorem mem_sortStrings {x : String} {l : List String} :
    x ∈ sortStrings l ↔ x ∈ l := by
  induction l with
  | nil => simp [sortStrings]
  | cons a t ih =>
    unfold sortStrings
    rw [mem_insertSorted, ih, List.mem_cons]

theorem mem_uniqStrings {x : String} {l : List String} :
    x ∈ uniqStrings l ↔ x ∈ l := by
  induction l with
  | nil => simp [uniqStrings]
  | cons a t ih =>
    unfold uniqStrings
    split
    · next hm =>
      rw [ih, List.mem_cons]
      constructor
      · exact fun h => Or.inr h
      · rintro (rfl | h)
        · exact hm
        · exact h
    · rw [List.mem_cons, ih, List.mem_cons]

/-- An upsert of one node followed by an edge-merge query, repeated with the
identical arguments, is a no-op: the node merge finds the node created the
first time, the matches are unchanged, and every merged edge is already
present. -/
theorem mergeUpsert_idem {g : Graph} {lbl : String} {ps sp dp : List (String × String)}
    {sl dl : Option String} {rel : String} (hnd : (ps.map Prod.fst).Nodup) :
    mergeEdgeQuery (mergeNode (mergeEdgeQuery (mergeNode g lbl ps) sl sp dl dp rel) lbl ps)
        sl sp dl dp rel
      = mergeEdgeQuery (mergeNode g lbl ps) sl sp dl dp rel := by
  set g1 := mergeNode g lbl ps with hg1
  set g2 := mergeEdgeQuery g1 sl sp dl dp rel with hg2
  have hnodes : g2.nodes = g1.nodes := mergeEdgeQuery_nodes
  have hex2 : nodeExists g2 (some lbl) ps := by
    obtain ⟨n, hn, hm⟩ := @mergeNode_exists g lbl ps hnd
    exact ⟨n, hnodes ▸ hn, hm⟩
  rw [mergeNode_of_exists hex2]
  unfold mergeEdgeQuery
  rw [@matchIds_congr g2 g1 sl sp hnodes, @matchIds_congr g2 g1 dl dp hnodes]
  refine mergeEdgePairs_id (fun pr hpr => ?_)
  exact mergeEdgePairs_adds hpr

/-! ### The Project Index as prepended binding blocks

`registerFileTypes` only ever prepends bindings whose value is the
registering file's path; the block view below makes the last-write-wins
lookup behaviour provable. -/

namespace JavaAstV2

/-- Whether a record registers the name `n` in the class map: it is not an
error record and some class or interface of it has `n` as its
fully-qualified or simple name. -/
def registersName (r : FileRecord) (n : String) : Bool :=
  !r.hasError &&
    (r.classes.any (fun ci => fullTypeName r.package ci.name == n || ci.name == n) ||
     r.interfaces.any (fun ii => fullTypeName r.package ii.name == n || ii.name == n))

/-- Whether a record declares a type whose fully-qualified name is `n`. -/
def declaresFqn (r : FileRecord) (n : String) : Bool :=
  !r.hasError &&
    (r.classes.any (fun ci => fullTypeName r.package ci.name == n) ||
     r.interfaces.any (fun ii => fullTypeName r.package ii.name == n))

/-- The bindings prepended for a class list (newest first). -/
def classBlock (pkg : Option String) (fp : String) : List ClassInfo → ClassMap
  | [] => []
  | c :: t => classBlock pkg fp t ++ [(c.name, fp), (fullTypeName pkg c.name, fp)]

/-- The bindings prepended for an interface list (newest first). -/
def ifaceBlock (pkg : Option String) (fp : String) : List InterfaceInfo → ClassMap
  | [] => []
  | i :: t => ifaceBlock pkg fp t ++ [(i.name, fp), (fullTypeName pkg i.name, fp)]

/-- All bindings one file's registration prepends to the class map. -/
def typeBlock (fp : String) (r : FileRecord) : ClassMap :=
  if r.hasError then []
  else ifaceBlock r.package fp r.interfaces ++ classBlock r.package fp r.classes

theorem classFold_eq (pkg : Option String) (fp : String) :
    ∀ (l : List ClassInfo) (cm : ClassMap),
      l.foldl (fun cm ci =>
          dictInsert (dictInsert cm (fullTypeName pkg ci.name) fp) ci.name fp) cm
        = classBlock pkg fp l ++ cm := by
  intro l
  induction l with
  | nil => intro cm; simp [classBlock]
  | cons c t ih =>
    intro cm
    show t.foldl _ (dictInsert (dictInsert cm (fullTypeName pkg c.name) fp) c.name fp) = _
    rw [ih]
    show classBlock pkg fp t ++ (c.name, fp) :: (fullTypeName pkg c.name, fp) :: cm
      = (classBlock pkg fp t ++ [(c.name, fp), (fullTypeName pkg c.name, fp)]) ++ cm
    rw [List.append_assoc]
    rfl

theorem ifaceFold_eq (pkg : Option String) (fp : String) :
    ∀ (l : List InterfaceInfo) (cm : ClassMap),
      l.foldl (fun cm ii =>
          dictInsert (dictInsert cm (fullTypeName pkg ii.name) fp) ii.name fp) cm
        = ifaceBlock pkg fp l ++ cm := by
  intro l
  induction l with
  | nil => intro cm; simp [ifaceBlock]
  | cons i t ih =>
    intro cm
    show t.foldl _ (dictInsert (dictInsert cm (fullTypeName pkg i.name) fp) i.name fp) = _
    rw [ih]
    show ifaceBlock pkg fp t ++ (i.name, fp) :: (fullTypeName pkg i.name, fp) :: cm
      = (ifaceBlock pkg fp t ++ [(i.name, fp), (fullTypeName pkg i.name, fp)]) ++ cm
    rw [List.append_assoc]
    rfl

theorem registerFileTypes_eq (fp : String) (r : FileRecord) (cm : ClassMap) :
    registerFileTypes cm fp r = typeBlock fp r ++ cm := by
  cases r with
  | err m => simp [registerFileTypes, typeBlock, FileRecord.hasError]
  | ok fi =>
    show fi.interfaces.foldl _ (fi.classes.foldl _ cm) = _
    rw [classFold_eq, ifaceFold_eq, ← List.append_assoc]
    rfl

theorem classBlock_mem {pkg : Option String} {fp : String} {kv : String × String} :
    ∀ {l : List ClassInfo}, kv ∈ classBlock pkg fp l ↔
      ∃ c ∈ l, kv = (c.name, fp) ∨ kv = (fullTypeName pkg c.name, fp) := by
  intro l
  induction l with
  | nil => simp [classBlock]
  | cons c t ih =>
    unfold classBlock
    rw [List.mem_append, ih]
    constructor
    · rintro (⟨c2, hc2, hv⟩ | hv)
      · exact ⟨c2, List.mem_cons_of_mem _ hc2, hv⟩
      · rcases List.mem_cons.mp hv with h | h
        · exact ⟨c, List.mem_cons_self _ _, Or.inl h⟩
        · exact ⟨c, List.mem_cons_self _ _, Or.inr (List.mem_singleton.mp h)⟩
    · rintro ⟨c2, hc2, hv⟩
      rcases List.mem_cons.mp hc2 with h | h
      · subst h
        rcases hv with h2 | h2
        · exact Or.inr (by rw [h2]; exact List.mem_cons_self _ _)
        · exact Or.inr (by rw [h2]; exact List.mem_cons_of_mem _ (List.mem_singleton.mpr rfl))
      · exact Or.inl ⟨c2, h, hv⟩

theorem ifaceBlock_mem {pkg : Option String} {fp : String} {kv : String × String} :
    ∀ {l : List InterfaceInfo}, kv ∈ ifaceBlock pkg fp l ↔
      ∃ i ∈ l, kv = (i.name, fp) ∨ kv = (fullTypeName pkg i.name, fp) := by
  intro l
  induction l with
  | nil => simp [ifaceBlock]
  | cons c t ih =>
    unfold ifaceBlock
    rw [List.mem_append, ih]
    constructor
    · rintro (⟨c2, hc2, hv⟩ | hv)
      · exact ⟨c2, List.mem_cons_of_mem _ hc2, hv⟩
      · rcases List.mem_cons.mp hv with h | h
        · exact ⟨c, List.mem_cons_self _ _, Or.inl h⟩
        · exact ⟨c, List.mem_cons_self _ _, Or.inr (List.mem_singleton.mp h)⟩
    · rintro ⟨c2, hc2, hv⟩
      rcases List.mem_cons.mp hc2 with h | h
      · subst h
        rcases hv with h2 | h2
        · exact Or.inr (by rw [h2]; exact List.mem_cons_self _ _)
        · exact Or.inr (by rw [h2]; exact List.mem_cons_of_mem _ (List.mem_singleton.mpr rfl))
      · exact Or.inl ⟨c2, h, hv⟩

theorem typeBlock_vals {fp : String} {r : FileRecord} {kv : String × String}
    (h : kv ∈ typeBlock fp r) : kv.2 = fp := by
  unfold typeBlock at h
  split at h
  · exact absurd h (List.not_mem_nil kv)
  · rcases List.mem_append.mp h with h2 | h2
    · obtain ⟨i, _, hv | hv⟩ := ifaceBlock_mem.mp h2 <;> rw [hv]
    · obtain ⟨c, _, hv | hv⟩ := classBlock_mem.mp h2 <;> rw [hv]

theorem declares_key {fp : String} {r : FileRecord} {n : String}
    (h : declaresFqn r n = true) : ∃ kv ∈ typeBlock fp r, kv.1 = n := by
  unfold declaresFqn at h
  rw [Bool.and_eq_true] at h
  obtain ⟨herr, hdisj⟩ := h
  have herr2 : r.hasError = false := by
    cases hb : r.hasError
    · rfl
    · rw [hb] at herr; exact absurd herr (by simp)
  unfold typeBlock
  rw [if_neg (by simp [herr2])]
  rw [Bool.or_eq_true] at hdisj
  rcases hdisj with hside | hside
  · obtain ⟨c, hc, hcn⟩ := List.any_eq_true.mp hside
    refine ⟨(fullTypeName r.package c.name, fp), ?_, by simpa using hcn⟩
    exact List.mem_append_right _ (classBlock_mem.mpr ⟨c, hc, Or.inr rfl⟩)
  · obtain ⟨i, hi, hin⟩ := List.any_eq_true.mp hside
    refine ⟨(fullTypeName r.package i.name, fp), ?_, by simpa using hin⟩
    exact List.mem_append_left _ (ifaceBlock_mem.mpr ⟨i, hi, Or.inr rfl⟩)

theorem key_registers {fp : String} {r : FileRecord} {n : String}
    (h : ∃ kv ∈ typeBlock fp r, kv.1 = n) : registersName r n = true := by
  obtain ⟨kv, hkv, hk⟩ := h
  unfold typeBlock at hkv
  by_cases herr : r.hasError = true
  · rw [if_pos herr] at hkv
    exact absurd hkv (List.not_mem_nil kv)
  · rw [if_neg herr] at hkv
    unfold registersName
    rw [Bool.and_eq_true, Bool.or_eq_true]
    refine ⟨by simp [Bool.eq_false_iff.mpr herr], ?_⟩
    rcases List.mem_append.mp hkv with h2 | h2
    · obtain ⟨i, hi, hv | hv⟩ := ifaceBlock_mem.mp h2
      · refine Or.inr (List.any_eq_true.mpr ⟨i, hi, ?_⟩)
        rw [hv] at hk
        simp only at hk
        simp [hk]
      · refine Or.inr (List.any_eq_true.mpr ⟨i, hi, ?_⟩)
        rw [hv] at hk
        simp only at hk
        simp [hk]
    · obtain ⟨c, hc, hv | hv⟩ := classBlock_mem.mp h2
      · refine Or.inl (List.any_eq_true.mpr ⟨c, hc, ?_⟩)
        rw [hv] at hk
        simp only at hk
        simp [hk]
      · refine Or.inl (List.any_eq_true.mpr ⟨c, hc, ?_⟩)
        rw [hv] at hk
        simp only at hk
        simp [hk]

theorem dictLookup_cons {a : String × String} {t : ClassMap} {n : String} :
    dictLookup (a :: t) n = if a.1 == n then some a.2 else dictLookup t n := by
  unfold dictLookup
  cases h : (a.1 == n) with
  | true => simp [List.find?, h]
  | false => simp [List.find?, h]

theorem dictLookup_append_found {B cm : ClassMap} {n fp : String}
    (hvals : ∀ kv ∈ B, kv.2 = fp) (hkey : ∃ kv ∈ B, kv.1 = n) :
    dictLookup (B ++ cm) n = some fp := by
  induction B with
  | nil =>
    obtain ⟨kv, h, _⟩ := hkey
    exact absurd h (List.not_mem_nil kv)
  | cons a t ih =>
    rw [List.cons_append, dictLookup_cons]
    by_cases ha : (a.1 == n) = true
    · rw [if_pos ha]
      rw [hvals a (List.mem_cons_self a t)]
    · rw [if_neg ha]
      refine ih (fun kv h => hvals kv (List.mem_cons_of_mem a h)) ?_
      obtain ⟨kv, hkv, hk⟩ := hkey
      rcases List.mem_cons.mp hkv with h | h
      · subst h
        exact absurd (by simp [hk]) ha
      · exact ⟨kv, h, hk⟩

theorem dictLookup_append_skip {B cm : ClassMap} {n : String}
    (hkey : ¬∃ kv ∈ B, kv.1 = n) :
    dictLookup (B ++ cm) n = dictLookup cm n := by
  induction B with
  | nil => rfl
  | cons a t ih =>
    rw [List.cons_append, dictLookup_cons]
    by_cases ha : (a.1 == n) = true
    · exact absurd ⟨a, List.mem_cons_self a t, by simpa using ha⟩ hkey
    · rw [if_neg ha]
      exact ih (fun ⟨kv, hkv, hk⟩ => hkey ⟨kv, List.mem_cons_of_mem a hkv, hk⟩)

theorem lookup_fold_skip {n v : String} :
    ∀ (l : List (String × FileRecord)) (cm : ClassMap),
      (∀ pr ∈ l, registersName pr.2 n = false) → dictLookup cm n = some v →
      dictLookup (l.foldl (fun cm pr => registerFileTypes cm pr.1 pr.2) cm) n = some v := by
  intro l
  induction l with
  | nil => exact fun cm _ h => h
  | cons a t ih =>
    intro cm hall hcm
    refine ih _ (fun pr h => hall pr (List.mem_cons_of_mem a h)) ?_
    show dictLookup (registerFileTypes cm a.1 a.2) n = some v
    rw [registerFileTypes_eq]
    rw [dictLookup_append_skip ?skip]
    · exact hcm
    · intro hk
      have := key_registers hk
      rw [hall a (List.mem_cons_self a t)] at this
      exact absurd this (by simp)

theorem lookup_buildClassMap (pre post : List (String × FileRecord))
    (fp : String) (F : FileRecord) (n : String)
    (hF : ∃ kv ∈ typeBlock fp F, kv.1 = n)
    (hpost : ∀ pr ∈ post, registersName pr.2 n = false) :
    dictLookup (buildClassMap (pre ++ (fp, F) :: post)) n = some fp := by
  unfold buildClassMap
  rw [List.foldl_append, List.foldl_cons]
  refine lookup_fold_skip post _ hpost ?_
  rw [registerFileTypes_eq]
  exact dictLookup_append_found (fun kv h => typeBlock_vals h) hF

end JavaAstV2

/-! ### Bridges between the executable observations and the predicates -/

theorem nodeExistsB_iff {g : Graph} {lbl : String} {ps : List (String × String)} :
    nodeExistsB g lbl ps = true ↔ nodeExists g (some lbl) ps := by
  unfold nodeExistsB nodeExists
  exact List.any_eq_true

theorem edgeExistsB_iff {g : Graph} {sl : Option String} {sp : List (String × String)}
    {dl : Option String} {dp : List (String × String)} {rel : String} :
    edgeExistsB g sl sp dl dp rel = true ↔ relBetween g sl sp dl dp rel := by
  unfold edgeExistsB relBetween
  rw [List.any_eq_true]
  constructor
  · rintro ⟨pr, hpr, hdec⟩
    have hmem := of_decide_eq_true hdec
    obtain ⟨h1, h2⟩ := pairsOf_mem.mp hpr
    exact ⟨⟨pr.1, rel, pr.2⟩, hmem, rfl, mem_matchIds.mp h1, mem_matchIds.mp h2⟩
  · rintro ⟨e, he, hr, hs, hd⟩
    refine ⟨(e.src, e.dst), pairsOf_mem.mpr ⟨mem_matchIds.mpr hs, mem_matchIds.mpr hd⟩, ?_⟩
    refine decide_eq_true ?_
    have : e = ⟨e.src, rel, e.dst⟩ := by cases e; simp_all
    exact this ▸ he

open CodeAnalyzerGraphLoader

/-! ## Claim C1 -/

/-- The project used to refute C1: a single file declaring package `a.b.c`;
the prefixes `a` and `a.b` are never any file's package. -/
def exC1_project : ProjectData :=
  ⟨"/proj", [("X.java", .ok
    { package := some "a.b.c", imports := [], classes := [],
      interfaces := [], dependencies := [] })]⟩

/-- C1 counterexample: for observed package `a.b.c` with undeclared prefixes,
the claim asserts Package nodes `a` and `a.b` and `CONTAINS` edges
`a→a.b→a.b.c` after load.  In fact `_create_package_hierarchy` only
`MATCH`es the prefix packages (it never creates them), so with only `a.b.c`
declared there is no Package node `a` or `a.b` and neither prefix edge
exists. -/
theorem C1_package_hierarchy_cex :
    nodeExistsB (load_project exC1_project Graph.empty) "Package" [("name", "a.b.c")] = true ∧
    nodeExistsB (load_project exC1_project Graph.empty) "Package" [("name", "a")] = false ∧
    nodeExistsB (load_project exC1_project Graph.empty) "Package" [("name", "a.b")] = false ∧
    ¬ relBetween (load_project exC1_project Graph.empty)
        (some "Package") [("name", "a")] (some "Package") [("name", "a.b")] "CONTAINS" ∧
    ¬ relBetween (load_project exC1_project Graph.empty)
        (some "Package") [("name", "a.b")] (some "Package") [("name", "a.b.c")] "CONTAINS" := by
  refine ⟨by decide, by decide, by decide, fun h => ?_, fun h => ?_⟩
  · exact absurd (edgeExistsB_iff.mpr h) (by decide)
  · exact absurd (edgeExistsB_iff.mpr h) (by decide)

/-- C1 (amended): for every observed package name `w` and every consecutive
prefix pair `(p, q)` in `w`'s dotted-prefix chain, if `p` and `q` are
themselves observed package names (declared as some file's package), then
after loading there is a `CONTAINS` relationship from Package `p` to Package
`q`.  (When a prefix is not itself observed, no node is created for it and
the corresponding edge is absent — see the counterexample.) -/
theorem C1_package_hierarchy_amended (pd : ProjectData) (g0 : Graph) (w p q : String)
    (hw : w ∈ observedPackages pd.files)
    (hpq : (p, q) ∈ pkgChainPairs w)
    (hp : p ∈ observedPackages pd.files)
    (hq : q ∈ observedPackages pd.files) :
    relBetween (load_project pd g0)
      (some "Package") [("name", p)] (some "Package") [("name", q)] "CONTAINS" := by
  obtain ⟨prP, hprP, hPt, hPv, hPne⟩ := mem_observedPackages hp
  obtain ⟨prQ, hprQ, hQt, hQv, hQne⟩ := mem_observedPackages hq
  show relBetween
    (pd.files.foldl (fun g pr => pr.2.dependencies.foldl (dependencyStep pr.1) g)
      (pd.files.foldl (fun g pr => processFile g pr.1 pr.2)
        (create_package_hierarchy
          (pd.files.foldl packageStep
            (create_project Graph.empty (basename pd.project_path) pd.project_path))
          (observedPackages pd.files))))
    (some "Package") [("name", p)] (some "Package") [("name", q)] "CONTAINS"
  set g1 := create_project Graph.empty (basename pd.project_path) pd.project_path with hg1
  have hexP : nodeExists (pd.files.foldl packageStep g1) (some "Package") [("name", p)] :=
    foldl_estab packageStep (fun g => nodeExists g (some "Package") [("name", p)])
      (fun _ => True) prP (fun _ _ => packageStep_le) (fun _ _ => trivial)
      (fun h hx => nodeExists_mono h hx) (fun _ _ => packageStep_estab hPt hPv)
      pd.files g1 hprP trivial
  have hexQ : nodeExists (pd.files.foldl packageStep g1) (some "Package") [("name", q)] :=
    foldl_estab packageStep (fun g => nodeExists g (some "Package") [("name", q)])
      (fun _ => True) prQ (fun _ _ => packageStep_le) (fun _ _ => trivial)
      (fun h hx => nodeExists_mono h hx) (fun _ _ => packageStep_estab hQt hQv)
      pd.files g1 hprQ trivial
  set g2 := pd.files.foldl packageStep g1 with hg2
  have hbase : relBetween (create_package_hierarchy g2 (observedPackages pd.files))
      (some "Package") [("name", p)] (some "Package") [("name", q)] "CONTAINS" := by
    have hw2 : w ∈ sortStrings (uniqStrings (observedPackages pd.files)) :=
      mem_sortStrings.mpr (mem_uniqStrings.mpr hw)
    unfold create_package_hierarchy
    refine foldl_estab _
      (fun g => relBetween g (some "Package") [("name", p)]
        (some "Package") [("name", q)] "CONTAINS")
      (fun g => nodeExists g (some "Package") [("name", p)] ∧
        nodeExists g (some "Package") [("name", q)]) w
      (fun g a => foldl_le (fun _ _ => hierEdgeStep_le) _ _)
      (fun h hx => ⟨nodeExists_mono h hx.1, nodeExists_mono h hx.2⟩)
      (fun h hx => relBetween_mono h hx)
      (fun g hg => ?_) _ _ hw2 ⟨hexP, hexQ⟩
    exact foldl_estab hierEdgeStep
      (fun g => relBetween g (some "Package") [("name", p)]
        (some "Package") [("name", q)] "CONTAINS")
      (fun g => nodeExists g (some "Package") [("name", p)] ∧
        nodeExists g (some "Package") [("name", q)]) (p, q)
      (fun _ _ => hierEdgeStep_le)
      (fun h hx => ⟨nodeExists_mono h hx.1, nodeExists_mono h hx.2⟩)
      (fun h hx => relBetween_mono h hx)
      (fun g hg2' => hierEdgeStep_estab hPne hQne hg2'.1 hg2'.2)
      _ _ hpq hg
  exact relBetween_mono
    (GraphLE.trans (foldl_le (fun _ _ => processFile_le) _ _)
      (foldl_le (fun _ _ => foldl_le (fun _ _ => dependencyStep_le) _ _) _ _))
    hbase

/-- The project used to witness C1's amended statement: three files whose
packages are `a.b.c`, `a` and `a.b`, so every prefix is itself observed. -/
def exC1_witness_project : ProjectData :=
  ⟨"/proj", [("X.java", .ok
    { package := some "a.b.c", imports := [], classes := [],
      interfaces := [], dependencies := [] }),
   ("Y.java", .ok
    { package := some "a", imports := [], classes := [],
      interfaces := [], dependencies := [] }),
   ("Z.java", .ok
    { package := some "a.b", imports := [], classes := [],
      interfaces := [], dependencies := [] })]⟩

/-- Witness for C1's amended statement at a concrete input: with `a`, `a.b`
and `a.b.c` all observed, the prefix edge `a→a.b` exists after load. -/
theorem C1_package_hierarchy_witness :
    "a.b.c" ∈ observedPackages exC1_witness_project.files ∧
    ("a", "a.b") ∈ pkgChainPairs "a.b.c" ∧
    relBetween (load_project exC1_witness_project Graph.empty)
      (some "Package") [("name", "a")] (some "Package") [("name", "a.b")] "CONTAINS" :=
  ⟨by decide, by decide,
    C1_package_hierarchy_amended exC1_witness_project Graph.empty "a.b.c" "a" "a.b"
      (by decide) (by decide) (by decide) (by decide)⟩

/-! ## Claim C8 -/

/-- C8 (confirmed): idempotence of load.  `load_project` begins with the
destructive reset (`_clear_database`), after which the whole write sequence
is a function of the extracted model alone, so two runs on the same model
produce identical stores — the same set of nodes and edges up to key
equality — regardless of the states the runs started from.  The load is a
deterministic replace-all operation. -/
theorem C8_load_idempotent (pd : ProjectData) (g1 g2 : Graph) :
    load_project pd g1 = load_project pd g2 := rfl

/-! ## Claim C9 -/

/-- C9 (confirmed): dangling by-name EXTENDS.  `_create_extends_relationship`
matches the child by `fullName` and the parent by `name`, both without any
label constraint, and merges an `EXTENDS` edge for every matching pair —
whatever node carries the name, local type or not.  It never adds or removes
nodes, the edges it adds are exactly the by-name matches, and when no node
matches the target name the statement is a no-op: no edge is created and no
error is raised (the operation is total). -/
theorem C9_extends_dangling (g : Graph) (child parent : String) :
    (create_extends_relationship g child parent).nodes = g.nodes ∧
    (∀ e : GEdge, e ∈ (create_extends_relationship g child parent).edges ↔
      e ∈ g.edges ∨ (e.rel = "EXTENDS" ∧ e.src ∈ matchIds g none [("fullName", child)] ∧
        e.dst ∈ matchIds g none [("name", parent)])) ∧
    (matchIds g none [("name", parent)] = [] →
      create_extends_relationship g child parent = g) := by
  refine ⟨mergeEdgeQuery_nodes, fun e => ?_, fun hnil => ?_⟩
  · unfold create_extends_relationship mergeEdgeQuery
    rw [mergeEdgePairs_mem]
    constructor
    · rintro (he | ⟨hm, hr⟩)
      · exact Or.inl he
      · obtain ⟨h1, h2⟩ := pairsOf_mem.mp hm
        exact Or.inr ⟨hr, h1, h2⟩
    · rintro (he | ⟨hr, h1, h2⟩)
      · exact Or.inl he
      · exact Or.inr ⟨pairsOf_mem.mpr ⟨h1, h2⟩, hr⟩
  · unfold create_extends_relationship mergeEdgeQuery
    rw [hnil, pairsOf_nil_right]
    rfl

/-- Witness for C9 at a concrete input: in the empty store nothing carries
`name = "Base"`, and the extends statement leaves the store untouched. -/
theorem C9_extends_dangling_witness :
    matchIds Graph.empty none [("name", "Base")] = [] ∧
    create_extends_relationship Graph.empty "p.A" "Base" = Graph.empty :=
  ⟨rfl, (C9_extends_dangling Graph.empty "p.A" "Base").2.2 rfl⟩

/-! ## Claim C5 -/

/-- The overload `foo : int` used to refute C5. -/
def exC5_fooInt : MethodInfo :=
  { name := "foo", return_type := some "int", parameters := [],
    documentation := none, description := none, body := none }

/-- The overload `foo : String` used to refute C5. -/
def exC5_fooStr : MethodInfo :=
  { name := "foo", return_type := some "String", parameters := [],
    documentation := none, description := none, body := none }

/-- The project used to refute C5: one class `p.A` with two methods named
`foo`, one returning `int`, one returning `String`. -/
def exC5_project : ProjectData :=
  ⟨"/proj", [("A.java", .ok
    { package := some "p", imports := [],
      classes := [{ name := "A", extendsName := none, implements := [], fields := [],
                    methods := [exC5_fooInt, exC5_fooStr] }],
      interfaces := [], dependencies := [] })]⟩

/-- C5 counterexample: the claim says two methods sharing a simple name
under the same owner collapse to exactly one node and that the loader never
produces two distinct nodes with the same derived id.  Loading a class `p.A`
with overloads `foo : int` and `foo : String` yields two distinct Method
nodes both carrying the derived id `p.A.foo`, because `_create_method`'s
`MERGE` keys on the full property map, not on the id. -/
theorem C5_member_collapse_cex :
    countNodesB (load_project exC5_project Graph.empty) "Method" [("id", "p.A.foo")] = 2 := by
  decide

/-- C5 (amended): members sharing a simple name under the same owner
collapse to a single node exactly when all their stored properties coincide:
repeating the member-creating statement sequence with identical properties
is a no-op for methods, fields and parameters.  (When any stored property
differs, the loader creates a second node with the same derived id — see the
counterexample.) -/
theorem C5_member_collapse_amended (g : Graph) (mp : MethodProps)
    (fname ftype cfn pname ptype mid : String) :
    create_method (create_method g mp) mp = create_method g mp ∧
    create_field (create_field g fname ftype cfn) fname ftype cfn
      = create_field g fname ftype cfn ∧
    create_parameter (create_parameter g pname ptype mid) pname ptype mid
      = create_parameter g pname ptype mid := by
  refine ⟨?_, ?_, ?_⟩
  · unfold create_method
    refine mergeUpsert_idem ?_
    rw [show (methodNodeProps mp).map Prod.fst
        = ["name", "id", "returnType", "documentation", "description", "body", "parent_name"]
      from rfl]
    decide
  · unfold create_field
    refine mergeUpsert_idem ?_
    rw [show ([("name", fname), ("type", ftype), ("id", cfn ++ "." ++ fname),
        ("class_name", cfn)] : List (String × String)).map Prod.fst
        = ["name", "type", "id", "class_name"] from rfl]
    decide
  · unfold create_parameter
    refine mergeUpsert_idem ?_
    rw [show ([("name", pname), ("type", ptype), ("id", mid ++ "." ++ pname),
        ("method_id", mid)] : List (String × String)).map Prod.fst
        = ["name", "type", "id", "method_id"] from rfl]
    decide

/-! ## Claim C2 -/

/-- The project used for the C2 counterexample: a single unparsable file. -/
def exC2_project : ProjectData :=
  ⟨"/proj", [("Bad.java", .err "Syntax error at line 3")]⟩

/-- C2 counterexample: the claim says that for a file whose record carries an
error, no node — File or otherwise — is created for that path during load.
But `CodeAnalyzerGraphLoader.load_project` has no error guard in its file
loop (unlike `graph.JavaProjectGraphLoader`): loading a project whose only
file is an error record still creates a File node for that path, and a
Project→File `CONTAINS` relationship. -/
theorem C2_error_isolation_cex :
    nodeExistsB (load_project exC2_project Graph.empty) "File" [("path", "Bad.java")] = true ∧
    edgeExistsB (load_project exC2_project Graph.empty) (some "Project") []
      (some "File") [("path", "Bad.java")] "CONTAINS" = true := by
  constructor
  · decide
  · decide

/-- C2 (amended): a file record carrying an error is excluded from the
Project Index (it contributes no class-map entry) and from resolution (its
record keeps no dependencies), and during load by `CodeAnalyzerGraphLoader`
its processing reduces to `_create_file` alone — so a File node (with its
containment edges) is still created for the path, but no Class, Interface,
Method, Field, Parameter or Import node and no other relationship. -/
theorem C2_error_isolation_amended (pre post : List (String × FileRecord))
    (p m : String) (g : Graph) :
    JavaAstV2.buildClassMap (pre ++ (p, FileRecord.err m) :: post)
      = JavaAstV2.buildClassMap (pre ++ post) ∧
    FileRecord.dependencies (FileRecord.err m) = [] ∧
    processFile g p (FileRecord.err m) = create_file g (basename p) p none := by
  refine ⟨?_, rfl, rfl⟩
  unfold JavaAstV2.buildClassMap
  rw [List.foldl_append, List.foldl_cons, List.foldl_append]
  rfl

/-! ## Claim C3 -/

/-- The record of `A.java`: package `p`, class `A` implementing `I`. -/
def exC3_fiA : FileInfo :=
  { package := some "p", imports := [],
    classes := [{ name := "A", extendsName := none, implements := ["I"],
                  fields := [], methods := [] }],
    interfaces := [], dependencies := [] }

/-- The record of `B.java`: package `p`, interface `I`. -/
def exC3_fiB : FileInfo :=
  { package := some "p", imports := [], classes := [],
    interfaces := [{ name := "I", extendsNames := [], methods := [] }],
    dependencies := [] }

/-- The two-file project with `A.java` ordered before `B.java`. -/
def exC3_ab : ProjectData :=
  ⟨"/proj", [("A.java", .ok exC3_fiA), ("B.java", .ok exC3_fiB)]⟩

/-- The two-file project with `B.java` ordered before `A.java`. -/
def exC3_ba : ProjectData :=
  ⟨"/proj", [("B.java", .ok exC3_fiB), ("A.java", .ok exC3_fiA)]⟩

/-- C3 counterexample: the claim asserts the `IMPLEMENTS` relationship
`p.A → p.I` regardless of file order.  With `A.java` processed first, the
inline `_create_implements_relationship` runs before the Interface node
exists, its `MATCH` finds nothing, and the relationship is never created:
the loaded graph has both type nodes but no `IMPLEMENTS` edge. -/
theorem C3_scenario_cex :
    nodeExistsB (load_project exC3_ab Graph.empty) "Class" [("fullName", "p.A")] = true ∧
    nodeExistsB (load_project exC3_ab Graph.empty) "Interface" [("fullName", "p.I")] = true ∧
    ¬ relBetween (load_project exC3_ab Graph.empty)
        (some "Class") [("fullName", "p.A")] (some "Interface") [("name", "I")] "IMPLEMENTS" := by
  refine ⟨by decide, by decide, fun h => ?_⟩
  exact absurd (edgeExistsB_iff.mpr h) (by decide)

/-- C3 (amended): in the two-file scenario the loaded graph contains the
Class node `p.A` and the Interface node `p.I` regardless of file order, and
both are contained in Package `p` and in their respective File nodes; but
the `IMPLEMENTS` relationship `p.A → p.I` is created only when the
interface's file is processed before the class's file (order `B.java`,
`A.java`) — with the opposite order it is absent (see the counterexample). -/
theorem C3_scenario_amended :
    nodeExistsB (load_project exC3_ab Graph.empty) "Class" [("fullName", "p.A")] = true ∧
    nodeExistsB (load_project exC3_ab Graph.empty) "Interface" [("fullName", "p.I")] = true ∧
    nodeExistsB (load_project exC3_ba Graph.empty) "Class" [("fullName", "p.A")] = true ∧
    nodeExistsB (load_project exC3_ba Graph.empty) "Interface" [("fullName", "p.I")] = true ∧
    relBetween (load_project exC3_ba Graph.empty)
      (some "Package") [("name", "p")] (some "Class") [("fullName", "p.A")] "CONTAINS" ∧
    relBetween (load_project exC3_ba Graph.empty)
      (some "File") [("path", "A.java")] (some "Class") [("fullName", "p.A")] "CONTAINS" ∧
    relBetween (load_project exC3_ba Graph.empty)
      (some "File") [("path", "B.java")] (some "Interface") [("fullName", "p.I")] "CONTAINS" ∧
    relBetween (load_project exC3_ba Graph.empty)
      (some "Class") [("fullName", "p.A")] (some "Interface") [("name", "I")] "IMPLEMENTS" := by
  refine ⟨by decide, by decide, by decide, by decide, ?_, ?_, ?_, ?_⟩
  · exact edgeExistsB_iff.mp (by decide)
  · exact edgeExistsB_iff.mp (by decide)
  · exact edgeExistsB_iff.mp (by decide)
  · exact edgeExistsB_iff.mp (by decide)

/-! ## Claim C4 -/

/-- C4 counterexample: the claim says the extracted record of a method with
no declared return type has `return_type` equal to the sentinel `"void"` and
is never `None`.  Extracting a method whose javalang node has no
`return_type` yields a record whose `return_type` is `None` — the sentinel
substitution does not happen at extraction. -/
theorem C4_sentinel_cex :
    (extractMethodInfo "generated summary" none []
        { name := "run", return_type := none, documentation := none }).return_type = none ∧
    (extractMethodInfo "generated summary" none []
        { name := "run", return_type := none, documentation := none }).return_type
      ≠ some "void" := by
  exact ⟨rfl, by decide⟩

/-- C4 (amended): for a method with no declared return type the extractor
records `return_type = None`; the sentinel is applied by the graph loader,
whose assembled `method_properties` normalize a falsy extracted return type
to `"void"` — so the stored `returnType` graph property is the sentinel,
never empty and never null. -/
theorem C4_sentinel_amended (description : String) (body : Option String)
    (params : List ParamInfo) (jm : JMethodDecl) (parent : String)
    (h : jm.return_type = none) :
    (extractMethodInfo description body params jm).return_type = none ∧
    (methodPropsOf parent (extractMethodInfo description body params jm)).returnType
      = "void" := by
  unfold extractMethodInfo methodPropsOf
  rw [h]
  exact ⟨rfl, rfl⟩

/-! ## Claim C6 -/

/-- C6 (confirmed): resolution exactness for exact matches.  If file `F`
declares a type whose fully-qualified name is `n`, no later-processed file
registers `n` in the Project Index, and a successfully parsed file `G`
imports the exact string `n`, then the v2 Relationship Resolver produces for
`G` an import dependency record with target `n` whose `file` field is `F`'s
path — and `analyze_relationships` attaches exactly those records to `G`'s
entry. -/
theorem C6_resolution_exact (pre post : List (String × FileRecord))
    (fp : String) (F : FileRecord) (gp : String) (G : FileRecord) (n : String)
    (hF : JavaAstV2.declaresFqn F n = true)
    (hpost : ∀ pr ∈ post, JavaAstV2.registersName pr.2 n = false)
    (hG : (gp, G) ∈ pre ++ (fp, F) :: post)
    (hGok : G.hasError = false)
    (hImp : n ∈ G.imports) :
    ({ dtype := "import", target := n, file := some fp } : Dependency) ∈
        JavaAstV2.computeDeps (JavaAstV2.buildClassMap (pre ++ (fp, F) :: post)) G ∧
    (gp, JavaAstV2.setDependencies G
        (JavaAstV2.computeDeps (JavaAstV2.buildClassMap (pre ++ (fp, F) :: post)) G)) ∈
      JavaAstV2.analyze_relationships (pre ++ (fp, F) :: post) := by
  have hlook : dictLookup (JavaAstV2.buildClassMap (pre ++ (fp, F) :: post)) n = some fp :=
    JavaAstV2.lookup_buildClassMap pre post fp F n (JavaAstV2.declares_key hF) hpost
  have hmem : dictMem (JavaAstV2.buildClassMap (pre ++ (fp, F) :: post)) n = true := by
    unfold dictMem
    rw [hlook]
    rfl
  constructor
  · unfold JavaAstV2.computeDeps
    refine List.mem_append_left _ ?_
    unfold JavaAstV2.importDeps
    refine List.mem_filterMap.mpr ⟨n, hImp, ?_⟩
    rw [if_pos (by simp [hmem])]
    rw [hlook]
  · unfold JavaAstV2.analyze_relationships
    refine List.mem_map.mpr ⟨(gp, G), hG, ?_⟩
    show (if (gp, G).2.hasError = true then _ else _) = _
    rw [if_neg (by simp [hGok])]

/-- File `F.java` of the C6 witness: declares `com.x.Y`. -/
def exC6_F : FileRecord :=
  .ok { package := some "com.x", imports := [],
        classes := [{ name := "Y", extendsName := none, implements := [],
                      fields := [], methods := [] }],
        interfaces := [], dependencies := [] }

/-- File `G.java` of the C6 witness: imports `com.x.Y`. -/
def exC6_G : FileRecord :=
  .ok { package := some "com.z", imports := ["com.x.Y"], classes := [],
        interfaces := [], dependencies := [] }

/-- Witness for C6 at a concrete two-file project. -/
theorem C6_resolution_exact_witness :
    JavaAstV2.declaresFqn exC6_F "com.x.Y" = true ∧
    "com.x.Y" ∈ FileRecord.imports exC6_G ∧
    ({ dtype := "import", target := "com.x.Y", file := some "F.java" } : Dependency) ∈
      JavaAstV2.computeDeps
        (JavaAstV2.buildClassMap [("F.java", exC6_F), ("G.java", exC6_G)]) exC6_G :=
  ⟨by decide, by decide,
    (C6_resolution_exact [] [("G.java", exC6_G)] "F.java" exC6_F "G.java" exC6_G "com.x.Y"
      (by decide) (by decide) (by decide) rfl (by decide)).1⟩

/-! ## Claim C7 -/

/-- The record used to refute C7: a file with class `A` (so the Project
Index is non-trivial) importing the external `java.util.List`. -/
def exC7_rec : FileRecord :=
  .ok { package := none, imports := ["java.util.List"],
        classes := [{ name := "A", extendsName := none, implements := [],
                      fields := [], methods := [] }],
        interfaces := [], dependencies := [] }

/-- The one-file project of the C7 counterexample. -/
def exC7_files : List (String × FileRecord) := [("A.java", exC7_rec)]

/-- C7 counterexample: the claim says every import of a successfully parsed
file produces a dependency record even when its target is unresolved.  In
the v2 resolver an import only produces a record when the internality
heuristic fires or the path is exactly indexed: the import `java.util.List`
of `A.java` (index keys `A`) matches neither, so its record is omitted
entirely — the file's computed dependencies contain no record with that
target. -/
theorem C7_unresolved_imports_cex :
    "java.util.List" ∈ FileRecord.imports exC7_rec ∧
    ¬ ∃ d ∈ JavaAstV2.computeDeps (JavaAstV2.buildClassMap exC7_files) exC7_rec,
        d.dtype = "import" ∧ d.target = "java.util.List" := by
  constructor
  · decide
  · decide

/-- C7 (amended): resolution is total and never fails the run, and the
record guarantee splits by resolver variant.  In the older resolver
(`java_ast.analyze_relationships`) every import unconditionally produces a
record with type `import`, the raw target, and the index lookup as its
(possibly absent) file pointer.  In the v2 heuristic resolver an import
passing the internality test but not exactly indexed produces a record
without a file pointer; and every produced record comes from an import that
passed the heuristic or was exactly indexed — imports matching neither are
omitted (see the counterexample). -/
theorem C7_unresolved_imports_amended :
    (∀ (cm : ClassMap) (imports : List String) (imp : String), imp ∈ imports →
      ({ dtype := "import", target := imp, file := dictLookup cm imp } : Dependency) ∈
        JavaAst.importDeps cm imports) ∧
    (∀ (cm : ClassMap) (imports : List String) (imp : String),
      imp ∈ imports → JavaAstV2.importIsInternal cm imp = true → dictMem cm imp = false →
      ({ dtype := "import", target := imp, file := none } : Dependency) ∈
        JavaAstV2.importDeps cm imports) ∧
    (∀ (cm : ClassMap) (imports : List String) (d : Dependency),
      d ∈ JavaAstV2.importDeps cm imports →
      JavaAstV2.importIsInternal cm d.target = true ∨ dictMem cm d.target = true) := by
  refine ⟨fun cm imports imp h => ?_, fun cm imports imp h hint hmem => ?_,
    fun cm imports d hd => ?_⟩
  · exact List.mem_map.mpr ⟨imp, h, rfl⟩
  · refine List.mem_filterMap.mpr ⟨imp, h, ?_⟩
    rw [if_pos (by simp [hint])]
    cases hL : dictLookup cm imp with
    | none => rfl
    | some v =>
      unfold dictMem at hmem
      rw [hL] at hmem
      exact absurd hmem (by simp)
  · obtain ⟨imp, _, hv⟩ := List.mem_filterMap.mp hd
    by_cases hc : (JavaAstV2.importIsInternal cm imp || dictMem cm imp) = true
    · rw [if_pos hc] at hv
      have hvd := Option.some.inj hv
      subst hvd
      rw [Bool.or_eq_true] at hc
      exact hc
    · rw [if_neg hc] at hv
      exact absurd hv (by simp)

/-- Witness for C7's amended statement: the older resolver records the
unresolvable `java.util.List` with no file pointer. -/
theorem C7_unresolved_imports_witness :
    "java.util.List" ∈ ["java.util.List"] ∧
    ({ dtype := "import", target := "java.util.List", file := none } : Dependency) ∈
      JavaAst.importDeps [] ["java.util.List"] :=
  ⟨by decide, C7_unresolved_imports_amended.1 [] ["java.util.List"] "java.util.List" (by decide)⟩

/-! ## Claim C10 -/

/-- Elements produced by an accumulate-and-append fold all satisfy a
property when the accumulator's and every chunk's elements do. -/
theorem foldl_append_mem {α β : Type} (f : α → List β) (P : β → Prop) :
    ∀ (l : List α) (acc : List β), (∀ e ∈ acc, P e) → (∀ a ∈ l, ∀ e ∈ f a, P e) →
      ∀ e ∈ l.foldl (fun acc a => acc ++ f a) acc, P e := by
  intro l
  induction l with
  | nil => exact fun acc hacc _ e he => hacc e he
  | cons a t ih =>
    intro acc hacc hl e he
    refine ih (acc ++ f a) (fun e2 he2 => ?_) (fun a2 ha2 => hl a2 (List.mem_cons_of_mem a ha2)) e he
    rcases List.mem_append.mp he2 with h | h
    · exact hacc e2 h
    · exact hl a (List.mem_cons_self a t) e2 h

/-- One class's object-reference entries never reference the declaring class
itself. -/
theorem classObjectRefs_no_self {cn : String} {ms : List AnalyzerMethod} {e : ObjRef}
    (he : e ∈ classObjectRefs cn ms) : e.referenced_object ≠ e.cls := by
  unfold classObjectRefs at he
  refine foldl_append_mem
    (fun mi => mi.referenced_objects.filterMap (fun r =>
      if r ≠ cn then some { cls := cn, method := mi.name, referenced_object := r } else none))
    (fun e => e.referenced_object ≠ e.cls) ms []
    (fun e2 he2 => absurd he2 (List.not_mem_nil e2)) (fun mi _ e2 he2 => ?_) e he
  obtain ⟨r, _, hv⟩ := List.mem_filterMap.mp he2
  by_cases hrc : r ≠ cn
  · rw [if_pos hrc] at hv
    have hvd := Option.some.inj hv
    subst hvd
    exact hrc
  · rw [if_neg hrc] at hv
    exact absurd hv (by simp)

/-- C10 (confirmed): the lexical object-reference extractor returns a
duplicate-free candidate list that excludes every name in the fixed
primitive set, for any method body and any raw pattern-match results; and a
class's recorded object references never include a reference to the
declaring class itself. -/
theorem C10_object_refs :
    (∀ (body : Option String) (nos scs vds : List String),
      (find_object_references body nos scs vds).Nodup ∧
      ∀ p ∈ primitives, p ∉ find_object_references body nos scs vds) ∧
    (∀ (classes : List AnalyzerClass) (e : ObjRef),
      e ∈ fileObjectRefs classes → e.referenced_object ≠ e.cls) := by
  constructor
  · intro body nos scs vds
    unfold find_object_references
    split
    · exact ⟨List.nodup_nil, fun p _ hmem => absurd hmem (List.not_mem_nil p)⟩
    · constructor
      · exact List.Nodup.filter _ (List.nodup_dedup _)
      · intro p hp hmem
        have hkeep := (List.mem_filter.mp hmem).2
        rw [decide_eq_true_iff] at hkeep
        exact hkeep hp
  · intro classes e he
    unfold fileObjectRefs at he
    exact foldl_append_mem (fun ci => classObjectRefs ci.name ci.methods)
      (fun e => e.referenced_object ≠ e.cls) classes []
      (fun e2 he2 => absurd he2 (List.not_mem_nil e2))
      (fun ci _ e2 he2 => classObjectRefs_no_self he2) e he

/-- The class list used to witness C10: class `A` whose method `run`
lexically references `B` and `A` itself. -/
def exC10_classes : List AnalyzerClass :=
  [{ name := "A", extendsName := none, implements := [], fields := [],
     methods := [{ name := "run", return_type := some "void", parameters := [],
                   body := some "B b = new B(); A a = this;",
                   referenced_objects := ["B", "A"] }] }]

/-- Witness for C10 at a concrete input: the self-reference `A` is dropped
and the recorded entry references `B`, not the declaring class. -/
theorem C10_object_refs_witness :
    ({ cls := "A", method := "run", referenced_object := "B" } : ObjRef)
        ∈ fileObjectRefs exC10_classes ∧
    ({ cls := "A", method := "run", referenced_object := "B" } : ObjRef).referenced_object
      ≠ ({ cls := "A", method := "run", referenced_object := "B" } : ObjRef).cls :=
  ⟨by decide, C10_object_refs.2 exC10_classes
    { cls := "A", method := "run", referenced_object := "B" } (by decide)⟩

/-- Witness for C4 at a concrete input. -/
theorem C4_sentinel_witness :
    ({ name := "run", return_type := none, documentation := none } : JMethodDecl).return_type
        = none ∧
    ((extractMethodInfo "" none []
        { name := "run", return_type := none, documentation := none }).return_type = none ∧
      (methodPropsOf "p.A" (extractMethodInfo "" none []
        { name := "run", return_type := none, documentation := none })).returnType = "void") :=
  ⟨rfl, C4_sentinel_amended "" none [] { name := "run", return_type := none, documentation := none } "p.A" rfl⟩

end CodeGraphRag
